import Mathlib

/-!
Verification of the `debt-zero-agent` repository against its natural-language
specification.

The Python sources are shallowly embedded as executable Lean definitions:

* Python strings are `List Char` (`Str` below); `str.count` and
  `str.replace(old, new, 1)` are modelled by fuel-driven scans that perform the
  same greedy, non-overlapping left-to-right search that CPython performs.
* External effects (the LLM call, the tree-sitter parser, the Unix `diff`
  binary, the file system) are parameters of the model (`Env`); all repository
  code operating on their results is translated faithfully.
* Python exceptions are modelled with `Except`; a `raise` that no caller
  catches is an `Except.error` result.
-/

namespace DebtZero

/-- A Python string, modelled as its list of characters. -/
abbrev Str := List Char

/-! ## `tools/file_writer.py` — `apply_edit` (Targeted Edit Engine) -/

/-- The `EditError` exception raised by `apply_edit` (file_writer.py).
`notFound` models the "Could not find the old_code" message, `ambiguous n`
models the "Found {n} occurrences" message. -/
inductive EditError where
  | notFound
  | ambiguous (count : Nat)
  deriving DecidableEq, Repr

/-- Fuel-driven scan modelling CPython `str.count`: greedy, non-overlapping,
left-to-right.  With `fuel > s.length` the fuel never runs out, so
`pyCount` below computes exactly what `original_content.count(old_code)`
computes (for the empty pattern CPython returns `len(s) + 1`, and so does
this scan). -/
def countFuel : Nat → Str → Str → Nat
  | 0, _, _ => 0
  | fuel + 1, pat, s =>
    if pat.isPrefixOf s then 1 + countFuel fuel pat (s.drop pat.length)
    else
      match s with
      | [] => 0
      | _ :: t => countFuel fuel pat t

/-- Python `s.count(pat)`. -/
def pyCount (s pat : Str) : Nat := countFuel (s.length + 1) pat s

/-- Fuel-driven scan modelling CPython `s.replace(pat, rep, 1)`: replace the
leftmost occurrence of `pat` (for the empty pattern CPython prepends `rep`,
and so does this scan). -/
def replFuel : Nat → Str → Str → Str → Str
  | 0, _, _, s => s
  | fuel + 1, pat, rep, s =>
    if pat.isPrefixOf s then rep ++ s.drop pat.length
    else
      match s with
      | [] => []
      | c :: t => c :: replFuel fuel pat rep t

/-- Python `s.replace(pat, rep, 1)`. -/
def pyReplaceFirst (s pat rep : Str) : Str := replFuel (s.length + 1) pat rep s

/-- `apply_edit` from `tools/file_writer.py`: count the occurrences of
`old_code`; zero occurrences or more than one raise `EditError`; otherwise
replace the single occurrence. -/
def apply_edit (original_content old_code new_code : Str) : Except EditError Str :=
  let count := pyCount original_content old_code
  if count = 0 then .error .notFound
  else if count > 1 then .error (.ambiguous count)
  else .ok (pyReplaceFirst original_content old_code new_code)

/-- The number of positions at which `pat` occurs as a substring of `s`,
counting overlapping occurrences (the plain mathematical notion of "S occurs
in C n times"): position `i` counts when `pat` is a prefix of `s.drop i`. -/
def occurrences (s pat : Str) : Nat :=
  match s with
  | [] => if pat = [] then 1 else 0
  | s'@(_ :: t) => (if pat.isPrefixOf s' then 1 else 0) + occurrences t pat

theorem occurrences_nil_pat (s : Str) : occurrences s [] = s.length + 1 := by
  induction s with
  | nil => simp [occurrences]
  | cons c t ih => simp [occurrences, List.isPrefixOf, ih]; omega

theorem countFuel_nil_pat (fuel : Nat) (s : Str) : countFuel fuel [] s = fuel := by
  induction fuel generalizing s with
  | zero => simp [countFuel]
  | succ f ih => simp [countFuel, List.isPrefixOf, ih]; omega

theorem occurrences_drop_le (pat : Str) (k : Nat) (s : Str) :
    occurrences (s.drop k) pat ≤ occurrences s pat := by
  induction k generalizing s with
  | zero => simp
  | succ k ih =>
    cases s with
    | nil => simp
    | cons c t =>
      calc occurrences ((c :: t).drop (k + 1)) pat = occurrences (t.drop k) pat := by simp
        _ ≤ occurrences t pat := ih t
        _ ≤ occurrences (c :: t) pat := by simp [occurrences]

theorem isPrefixOf_nil_iff {pat : Str} : pat.isPrefixOf ([] : Str) ↔ pat = [] := by
  cases pat <;> simp [List.isPrefixOf]

theorem countFuel_eq_zero_iff (pat : Str) (hp : pat ≠ []) :
    ∀ (fuel : Nat) (s : Str), s.length < fuel →
      (countFuel fuel pat s = 0 ↔ occurrences s pat = 0) := by
  intro fuel
  induction fuel with
  | zero => intro s h; omega
  | succ f ih =>
    intro s h
    by_cases hpre : pat.isPrefixOf s
    · cases s with
      | nil => exact absurd (isPrefixOf_nil_iff.mp hpre) hp
      | cons c t => simp [countFuel, occurrences, hpre]
    · cases s with
      | nil => simp [countFuel, occurrences, hpre, hp]
      | cons c t =>
        have ht : t.length < f := by simp at h; omega
        simp [countFuel, occurrences, hpre, ih t ht]

theorem countFuel_eq_one (pat : Str) (hp : pat ≠ []) :
    ∀ (fuel : Nat) (s : Str), s.length < fuel →
      occurrences s pat = 1 → countFuel fuel pat s = 1 := by
  intro fuel
  induction fuel with
  | zero => intro s h; omega
  | succ f ih =>
    intro s h hocc
    by_cases hpre : pat.isPrefixOf s
    · cases s with
      | nil => exact absurd (isPrefixOf_nil_iff.mp hpre) hp
      | cons c t =>
        have hpat_pos : 1 ≤ pat.length := by
          cases pat with
          | nil => exact absurd rfl hp
          | cons _ _ => simp
        have htail : occurrences t pat = 0 := by
          simp [occurrences, hpre] at hocc; omega
        have hdrop : (c :: t).drop pat.length = t.drop (pat.length - 1) := by
          cases pat with
          | nil => exact absurd rfl hp
          | cons p ps => simp
        have hzero : occurrences ((c :: t).drop pat.length) pat = 0 := by
          rw [hdrop]
          have := occurrences_drop_le pat (pat.length - 1) t
          omega
        have hlen : ((c :: t).drop pat.length).length < f := by
          simp at h ⊢; omega
        have := (countFuel_eq_zero_iff pat hp f _ hlen).mpr hzero
        simp [countFuel, hpre, this]
    · cases s with
      | nil => simp [occurrences, hp] at hocc
      | cons c t =>
        have ht : t.length < f := by simp at h; omega
        have : occurrences t pat = 1 := by simp [occurrences, hpre] at hocc; omega
        simp [countFuel, hpre, ih t ht this]

theorem replFuel_spec (pat rep : Str) :
    ∀ (fuel : Nat) (s : Str), s.length < fuel → 1 ≤ countFuel fuel pat s →
      ∃ a b, s = a ++ pat ++ b ∧ replFuel fuel pat rep s = a ++ rep ++ b := by
  intro fuel
  induction fuel with
  | zero => intro s h; omega
  | succ f ih =>
    intro s h hc
    by_cases hpre : pat.isPrefixOf s
    · obtain ⟨b, hb⟩ := List.isPrefixOf_iff_prefix.mp hpre
      refine ⟨[], b, ?_, ?_⟩
      · simpa using hb.symm
      · have : s.drop pat.length = b := by
          rw [← hb]; exact List.drop_left pat b
        simp [replFuel, hpre, this]
    · cases s with
      | nil => simp [countFuel, hpre] at hc
      | cons c t =>
        have ht : t.length < f := by simp at h; omega
        have hc' : 1 ≤ countFuel f pat t := by simpa [countFuel, hpre] using hc
        obtain ⟨a, b, h1, h2⟩ := ih t ht hc'
        exact ⟨c :: a, b, by simp [h1], by simp [replFuel, hpre, h2]⟩

theorem occurrences_one_pyCount (s pat : Str) (h : occurrences s pat = 1) :
    pyCount s pat = 1 := by
  by_cases hp : pat = []
  · subst hp
    rw [occurrences_nil_pat] at h
    have : s = [] := by
      cases s with
      | nil => rfl
      | cons _ _ => simp at h
    subst this; rfl
  · exact countFuel_eq_one pat hp _ s (by omega) h

theorem occurrences_zero_pyCount (s pat : Str) (h : occurrences s pat = 0) :
    pyCount s pat = 0 := by
  by_cases hp : pat = []
  · subst hp; rw [occurrences_nil_pat] at h; omega
  · exact (countFuel_eq_zero_iff pat hp _ s (by omega)).mpr h

/-- C1 (amended).  The edit engine counts occurrences the way CPython's
`str.count` does: greedy, non-overlapping, left-to-right (`pyCount`).
If `old_code` occurs exactly once in the content (in the plain sense,
`occurrences`), the unique occurrence is replaced and the length changes by
`new_code.length - old_code.length`; if it does not occur at all, `apply_edit`
raises the not-found `EditError`; and if the *non-overlapping* count is two or
more, `apply_edit` raises the ambiguity `EditError` naming that count.
(`apply_edit` is a pure function, so the content is never modified in the
error cases.) -/
theorem apply_edit_spec (C S S' : Str) :
    (occurrences C S = 1 →
      ∃ a b, C = a ++ S ++ b ∧ apply_edit C S S' = .ok (a ++ S' ++ b) ∧
        (a ++ S' ++ b).length + S.length = C.length + S'.length)
    ∧ (occurrences C S = 0 → apply_edit C S S' = .error .notFound)
    ∧ (2 ≤ pyCount C S → apply_edit C S S' = .error (.ambiguous (pyCount C S))) := by
  refine ⟨?_, ?_, ?_⟩
  · intro h
    have hc := occurrences_one_pyCount C S h
    have hrep := replFuel_spec S S' (C.length + 1) C (by omega)
      (by unfold pyCount at hc; omega)
    obtain ⟨a, b, h1, h2⟩ := hrep
    refine ⟨a, b, h1, ?_, ?_⟩
    · simp only [apply_edit, hc]
      simpa [pyReplaceFirst] using h2
    · have := congrArg List.length h1
      simp at this ⊢
      omega
  · intro h
    have hc := occurrences_zero_pyCount C S h
    simp [apply_edit, hc]
  · intro h
    have h0 : ¬ pyCount C S = 0 := by omega
    have h1 : pyCount C S > 1 := by omega
    simp [apply_edit, h0, h1]

/-- C1 counterexample to the claim as stated: `"aa"` occurs at two positions
of `"aaa"`, yet `apply_edit` succeeds (CPython's non-overlapping count is 1),
returning `"ba"` instead of raising the ambiguity `EditError`. -/
theorem apply_edit_overlap_counterexample :
    occurrences "aaa".data "aa".data = 2 ∧
      apply_edit "aaa".data "aa".data "b".data = .ok "ba".data := by
  constructor <;> rfl

/-- Closed witness for `apply_edit_spec`: instantiates all three branches at
concrete inputs. -/
theorem apply_edit_spec_witness :
    (∃ a b, ("xy".data : Str) = a ++ "x".data ++ b ∧
        apply_edit "xy".data "x".data "uv".data = .ok (a ++ "uv".data ++ b) ∧
        (a ++ "uv".data ++ b).length + ("x".data : Str).length =
          ("xy".data : Str).length + ("uv".data : Str).length)
    ∧ apply_edit "xy".data "q".data "uv".data = .error .notFound
    ∧ apply_edit "xx".data "x".data "uv".data = .error (.ambiguous 2) := by
  refine ⟨(apply_edit_spec "xy".data "x".data "uv".data).1 (by decide),
    (apply_edit_spec "xy".data "q".data "uv".data).2.1 (by decide), ?_⟩
  exact (apply_edit_spec "xx".data "x".data "uv".data).2.2 (by decide)

/-! ## `models/issue.py` — `SonarQubeIssue` and `get_file_path` -/

/-- The issue record (`models/issue.py`); fields not used by the verified code
paths (`textRange`, `tags`) are omitted. -/
structure SonarQubeIssue where
  key : String
  rule : String
  severity : String
  component : String
  message : String
  line : Option Nat
  issueType : String
  deriving DecidableEq, Repr

/-- `SonarQubeIssue.get_file_path`: the part of `component` after the first
colon (`component.split(":", 1)[1]`) when a colon is present, else the whole
component. -/
def get_file_path (i : SonarQubeIssue) : String :=
  if i.component.data.contains ':' then
    ⟨(i.component.data.dropWhile (fun c => c != ':')).tail⟩
  else i.component

/-! ## `agent/nodes.py` — `batch_issues_by_file` (Issue Batcher)

Python's `sorted`/`list.sort` are stable; the model uses stable insertion
sorts.  Python compares strings lexicographically by code point; `strLt`
below is that order on `List Char`. -/

/-- `i.line or 0`: the sort key used for the per-file descending sort
(`None` — and an explicit 0 — are falsy and become 0). -/
def lineKey (i : SonarQubeIssue) : Nat := i.line.getD 0

/-- Lexicographic (code-point) strict order on Python strings. -/
def strLt : Str → Str → Bool
  | [], [] => false
  | [], _ :: _ => true
  | _ :: _, [] => false
  | a :: as, b :: bs =>
    if a.toNat < b.toNat then true
    else if b.toNat < a.toNat then false
    else strLt as bs

theorem strLt_irrefl (s : Str) : strLt s s = false := by
  induction s with
  | nil => rfl
  | cons c t ih => simp [strLt, ih]

theorem strLt_asymm : ∀ (x y : Str), strLt x y = true → strLt y x = false := by
  intro x
  induction x with
  | nil => intro y h; cases y <;> simp_all [strLt]
  | cons a as ih =>
    intro y h
    cases y with
    | nil => simp [strLt] at h
    | cons b bs =>
      by_cases hab : a.toNat < b.toNat
      · simp [strLt, hab]; omega
      · by_cases hba : b.toNat < a.toNat
        · simp [strLt, hab, hba] at h
        · simp [strLt, hab, hba] at h ⊢
          exact ih bs h

theorem strLt_eq_of_not_lt : ∀ (x y : Str), strLt x y = false → strLt y x = false → x = y := by
  intro x
  induction x with
  | nil => intro y h1 h2; cases y <;> simp_all [strLt]
  | cons a as ih =>
    intro y h1 h2
    cases y with
    | nil => simp [strLt] at h2
    | cons b bs =>
      by_cases hab : a.toNat < b.toNat
      · simp [strLt, hab] at h1
      · by_cases hba : b.toNat < a.toNat
        · simp [strLt, hba, Nat.not_lt_of_lt hba] at h2
        · have hv : a = b := Char.eq_of_val_eq (UInt32.ext (by
            simp only [Char.toNat] at hab hba; omega))
          subst hv
          simp [strLt, hab] at h1 h2
          rw [ih bs h1 h2]

theorem strLt_trans : ∀ (x y z : Str), strLt x y = true → strLt y z = true →
    strLt x z = true := by
  intro x
  induction x with
  | nil =>
    intro y z h1 h2
    cases y with
    | nil => simp [strLt] at h1
    | cons b bs => cases z with
      | nil => simp [strLt] at h2
      | cons c cs => simp [strLt]
  | cons a as ih =>
    intro y z h1 h2
    cases y with
    | nil => simp [strLt] at h1
    | cons b bs =>
      cases z with
      | nil => simp [strLt] at h2
      | cons c cs =>
        by_cases hab : a.toNat < b.toNat
        · by_cases hbc : b.toNat < c.toNat
          · simp [strLt, show a.toNat < c.toNat by omega]
          · by_cases hcb : c.toNat < b.toNat
            · simp [strLt, hbc, hcb] at h2
            · simp [strLt, show a.toNat < c.toNat by omega]
        · by_cases hba : b.toNat < a.toNat
          · simp [strLt, hab, hba] at h1
          · by_cases hbc : b.toNat < c.toNat
            · simp [strLt, show a.toNat < c.toNat by omega]
            · by_cases hcb : c.toNat < b.toNat
              · simp [strLt, hbc, hcb] at h2
              · simp [strLt, hab, hba] at h1
                simp [strLt, hbc, hcb] at h2
                simp [strLt, show ¬ a.toNat < c.toNat by omega,
                  show ¬ c.toNat < a.toNat by omega]
                exact ih bs cs h1 h2

/-- Non-strict string order: `x ≤ y` iff `¬ (y < x)`. -/
def strLe (x y : Str) : Bool := !(strLt y x)

theorem strLe_trans {x y z : Str} (h1 : strLe x y = true) (h2 : strLe y z = true) :
    strLe x z = true := by
  simp only [strLe, Bool.not_eq_true'] at h1 h2 ⊢
  rcases Bool.eq_false_or_eq_true (strLt z x) with h | h
  · rcases Bool.eq_false_or_eq_true (strLt x y) with hxy | hxy
    · have := strLt_trans z x y h hxy
      rw [this] at h2; cases h2
    · have hxy' := strLt_eq_of_not_lt x y hxy h1
      rw [← hxy'] at h2
      rw [h] at h2; cases h2
  · exact h

theorem strLe_total (x y : Str) : strLe x y = true ∨ strLe y x = true := by
  simp only [strLe, Bool.not_eq_true']
  rcases Bool.eq_false_or_eq_true (strLt y x) with h | h
  · exact Or.inr (strLt_asymm y x h)
  · exact Or.inl h

/-- Stable insertion into a list sorted descending by `lineKey` — the element
being inserted comes from *earlier* in the original list, so on equal keys it
stays in front (this is what Python's stable `list.sort(reverse=True)` with
key `i.line or 0` produces). -/
def insertLineDesc (x : SonarQubeIssue) : List SonarQubeIssue → List SonarQubeIssue
  | [] => [x]
  | y :: ys => if lineKey y ≤ lineKey x then x :: y :: ys else y :: insertLineDesc x ys

/-- `file_issues.sort(key=lambda i: i.line or 0, reverse=True)`. -/
def sortLineDesc : List SonarQubeIssue → List SonarQubeIssue
  | [] => []
  | x :: xs => insertLineDesc x (sortLineDesc xs)

/-- Insertion into a lexicographically ascending list of strings. -/
def insertStrAsc (x : String) : List String → List String
  | [] => [x]
  | y :: ys => if strLe x.data y.data then x :: y :: ys else y :: insertStrAsc x ys

/-- `sorted(by_file.keys())`. -/
def sortStrings : List String → List String
  | [] => []
  | x :: xs => insertStrAsc x (sortStrings xs)

/-- The distinct keys of the `defaultdict` built by `batch_issues_by_file`
(they are immediately sorted, so which duplicate survives is irrelevant). -/
def distinctKeys : List String → List String
  | [] => []
  | x :: xs =>
    let d := distinctKeys xs
    if x ∈ d then d else x :: d

/-- `batch_issues_by_file` from `agent/nodes.py`: group the issues by
`get_file_path` (each group keeps input order, as the `defaultdict` appends
do), iterate the groups in sorted key order, and sort each group by
`i.line or 0` descending (stably). -/
def batch_issues_by_file (issues : List SonarQubeIssue) : List SonarQubeIssue :=
  let keys := sortStrings (distinctKeys (issues.map get_file_path))
  keys.flatMap (fun f => sortLineDesc (issues.filter (fun i => get_file_path i == f)))

theorem insertLineDesc_perm (x : SonarQubeIssue) (l : List SonarQubeIssue) :
    (insertLineDesc x l).Perm (x :: l) := by
  induction l with
  | nil => simp [insertLineDesc]
  | cons y ys ih =>
    by_cases h : lineKey y ≤ lineKey x
    · simp [insertLineDesc, h]
    · simp only [insertLineDesc, h, if_false]
      exact (ih.cons y).trans (List.Perm.swap x y ys)

theorem sortLineDesc_perm (l : List SonarQubeIssue) : (sortLineDesc l).Perm l := by
  induction l with
  | nil => simp [sortLineDesc]
  | cons x xs ih => exact (insertLineDesc_perm x (sortLineDesc xs)).trans (ih.cons x)

theorem insertLineDesc_pairwise (x : SonarQubeIssue) (l : List SonarQubeIssue)
    (h : l.Pairwise (fun a b => lineKey b ≤ lineKey a)) :
    (insertLineDesc x l).Pairwise (fun a b => lineKey b ≤ lineKey a) := by
  induction l with
  | nil => simp [insertLineDesc]
  | cons y ys ih =>
    rcases List.pairwise_cons.mp h with ⟨hy, hys⟩
    by_cases hk : lineKey y ≤ lineKey x
    · rw [insertLineDesc, if_pos hk]
      refine List.pairwise_cons.mpr ⟨?_, h⟩
      intro z hz
      rcases List.mem_cons.mp hz with hz | hz
      · subst hz; omega
      · have := hy z hz; omega
    · rw [insertLineDesc, if_neg hk]
      refine List.pairwise_cons.mpr ⟨?_, ih hys⟩
      intro z hz
      have hz' := (insertLineDesc_perm x ys).mem_iff.mp hz
      rcases List.mem_cons.mp hz' with hz' | hz'
      · subst hz'; omega
      · exact hy z hz'

theorem sortLineDesc_pairwise (l : List SonarQubeIssue) :
    (sortLineDesc l).Pairwise (fun a b => lineKey b ≤ lineKey a) := by
  induction l with
  | nil => simp [sortLineDesc]
  | cons x xs ih => exact insertLineDesc_pairwise x (sortLineDesc xs) ih

theorem insertStrAsc_perm (x : String) (l : List String) :
    (insertStrAsc x l).Perm (x :: l) := by
  induction l with
  | nil => simp [insertStrAsc]
  | cons y ys ih =>
    by_cases h : strLe x.data y.data
    · simp [insertStrAsc, h]
    · simp only [insertStrAsc, h, if_false]
      exact (ih.cons y).trans (List.Perm.swap x y ys)

theorem sortStrings_perm (l : List String) : (sortStrings l).Perm l := by
  induction l with
  | nil => simp [sortStrings]
  | cons x xs ih => exact (insertStrAsc_perm x (sortStrings xs)).trans (ih.cons x)

theorem insertStrAsc_pairwise (x : String) (l : List String)
    (h : l.Pairwise (fun a b => strLe a.data b.data = true)) :
    (insertStrAsc x l).Pairwise (fun a b => strLe a.data b.data = true) := by
  induction l with
  | nil => simp [insertStrAsc]
  | cons y ys ih =>
    rcases List.pairwise_cons.mp h with ⟨hy, hys⟩
    by_cases hk : strLe x.data y.data
    · rw [insertStrAsc, if_pos hk]
      refine List.pairwise_cons.mpr ⟨?_, h⟩
      intro z hz
      rcases List.mem_cons.mp hz with hz | hz
      · subst hz; exact hk
      · exact strLe_trans hk (hy z hz)
    · rw [insertStrAsc, if_neg hk]
      refine List.pairwise_cons.mpr ⟨?_, ih hys⟩
      intro z hz
      have hz' := (insertStrAsc_perm x ys).mem_iff.mp hz
      rcases List.mem_cons.mp hz' with hz' | hz'
      · rw [hz']
        rcases strLe_total x.data y.data with h' | h'
        · exact absurd h' hk
        · exact h'
      · exact hy z hz'

theorem sortStrings_pairwise (l : List String) :
    (sortStrings l).Pairwise (fun a b => strLe a.data b.data = true) := by
  induction l with
  | nil => simp [sortStrings]
  | cons x xs ih => exact insertStrAsc_pairwise x (sortStrings xs) ih

theorem distinctKeys_nodup (l : List String) : (distinctKeys l).Nodup := by
  induction l with
  | nil => simp [distinctKeys]
  | cons x xs ih =>
    by_cases h : x ∈ distinctKeys xs
    · simpa [distinctKeys, h] using ih
    · simpa [distinctKeys, h] using ih

theorem mem_distinctKeys (l : List String) (a : String) :
    a ∈ distinctKeys l ↔ a ∈ l := by
  induction l with
  | nil => simp [distinctKeys]
  | cons x xs ih =>
    by_cases h : x ∈ distinctKeys xs
    · simp only [distinctKeys, h, if_true, List.mem_cons, ih]
      constructor
      · exact Or.inr
      · rintro (rfl | hm)
        · exact ih.mp h
        · exact hm
    · simp [distinctKeys, h, ih]

theorem sum_map_ite_nodup (l : List String) (x : String) (n : Nat)
    (hnd : l.Nodup) (hx : x ∈ l) :
    (l.map (fun f => if x = f then n else 0)).sum = n := by
  induction l with
  | nil => simp at hx
  | cons y ys ih =>
    rcases List.nodup_cons.mp hnd with ⟨hy, hys⟩
    rcases List.mem_cons.mp hx with h | hx
    · subst h
      have hz : (ys.map (fun f => if x = f then n else 0)).sum = 0 := by
        apply List.sum_eq_zero
        intro z hz
        obtain ⟨w, hw, rfl⟩ := List.mem_map.mp hz
        have hxw : x ≠ w := fun h => hy (h ▸ hw)
        simp [hxw]
      simp [hz]
    · have hxy : x ≠ y := fun h => hy (h ▸ hx)
      simp [hxy, ih hys hx]

/-- The order produced by the batcher: strictly increasing (lexicographic)
file path across groups, and within a file group non-increasing `i.line or 0`
key (so issues with no line number, key 0, come after any issue with a
positive line number in the same group). -/
def batchRel (a b : SonarQubeIssue) : Prop :=
  strLt (get_file_path a).data (get_file_path b).data = true ∨
    (get_file_path a = get_file_path b ∧ lineKey b ≤ lineKey a)

theorem block_path (issues : List SonarQubeIssue) (f : String) (x : SonarQubeIssue)
    (hx : x ∈ sortLineDesc (issues.filter (fun i => get_file_path i == f))) :
    get_file_path x = f := by
  have h1 := (sortLineDesc_perm _).mem_iff.mp hx
  have h2 := (List.mem_filter.mp h1).2
  simpa using h2

theorem batch_perm (issues : List SonarQubeIssue) :
    (batch_issues_by_file issues).Perm issues := by
  rw [List.perm_iff_count]
  intro a
  unfold batch_issues_by_file
  rw [List.count_flatMap]
  have hterm : ∀ f : String,
      List.count a (sortLineDesc (issues.filter (fun i => get_file_path i == f))) =
        if get_file_path a = f then List.count a issues else 0 := by
    intro f
    rw [(sortLineDesc_perm _).count_eq]
    by_cases hf : get_file_path a = f
    · rw [if_pos hf]
      exact List.count_filter (by simp [hf])
    · rw [if_neg hf]
      refine List.count_eq_zero.mpr ?_
      intro hmem
      have := (List.mem_filter.mp hmem).2
      simp at this
      exact hf this
  have hmap : (sortStrings (distinctKeys (issues.map get_file_path))).map
      (List.count a ∘ fun f => sortLineDesc (issues.filter (fun i => get_file_path i == f))) =
      (sortStrings (distinctKeys (issues.map get_file_path))).map
        (fun f => if get_file_path a = f then List.count a issues else 0) := by
    apply List.map_congr_left
    intro f _
    exact hterm f
  rw [hmap]
  by_cases ha : a ∈ issues
  · have hnd : (sortStrings (distinctKeys (issues.map get_file_path))).Nodup :=
      (sortStrings_perm _).nodup_iff.mpr (distinctKeys_nodup _)
    have hmem : get_file_path a ∈ sortStrings (distinctKeys (issues.map get_file_path)) :=
      (sortStrings_perm _).mem_iff.mpr
        ((mem_distinctKeys _ _).mpr (List.mem_map_of_mem get_file_path ha))
    exact sum_map_ite_nodup _ _ _ hnd hmem
  · have h0 : List.count a issues = 0 := List.count_eq_zero.mpr ha
    rw [List.count_eq_zero.mpr ha]
    apply List.sum_eq_zero
    intro z hz
    obtain ⟨f, _, rfl⟩ := List.mem_map.mp hz
    by_cases hf : get_file_path a = f <;> simp [hf, h0]

theorem batch_pairwise (issues : List SonarQubeIssue) :
    (batch_issues_by_file issues).Pairwise batchRel := by
  unfold batch_issues_by_file
  rw [List.pairwise_flatMap]
  constructor
  · intro f _
    refine List.Pairwise.imp_of_mem ?_ (sortLineDesc_pairwise _)
    intro x y hx hy hr
    exact Or.inr ⟨(block_path issues f x hx).trans (block_path issues f y hy).symm, hr⟩
  · have hnd : (sortStrings (distinctKeys (issues.map get_file_path))).Nodup :=
      (sortStrings_perm _).nodup_iff.mpr (distinctKeys_nodup _)
    have hle := sortStrings_pairwise (distinctKeys (issues.map get_file_path))
    have hlt : (sortStrings (distinctKeys (issues.map get_file_path))).Pairwise
        (fun f f' => strLt f.data f'.data = true) := by
      refine (hle.and hnd).imp ?_
      intro f f' ⟨h1, h2⟩
      rcases Bool.eq_false_or_eq_true (strLt f.data f'.data) with h | h
      · exact h
      · simp only [strLe, Bool.not_eq_true'] at h1
        have := strLt_eq_of_not_lt f.data f'.data h h1
        exact absurd (congrArg String.mk this) h2
    refine hlt.imp ?_
    intro f f' hff' x hx y hy
    exact Or.inl (by rw [block_path issues f x hx, block_path issues f' y hy]; exact hff')

/-- Example issues from the spec's batching-order test case. -/
def exA10 : SonarQubeIssue :=
  { key := "kA10", rule := "r1", severity := "MAJOR", component := "proj:fileA",
    message := "m1", line := some 10, issueType := "CODE_SMELL" }

def exA5 : SonarQubeIssue :=
  { key := "kA5", rule := "r2", severity := "MAJOR", component := "proj:fileA",
    message := "m2", line := some 5, issueType := "CODE_SMELL" }

def exB1 : SonarQubeIssue :=
  { key := "kB1", rule := "r3", severity := "MAJOR", component := "proj:fileB",
    message := "m3", line := some 1, issueType := "CODE_SMELL" }

/-- C5: `batch_issues_by_file` returns a permutation of its input in which
file paths appear in non-decreasing (in fact strictly grouped lexicographic)
order and, within a file group, the `i.line or 0` keys are non-increasing —
issues with no line number (key 0) come last in their group; on the spec's
example `{(fileA,10), (fileA,5), (fileB,1)}` (fed in a scrambled order) the
output order is `fileA@10, fileA@5, fileB@1`. -/
theorem batch_issues_by_file_spec :
    (∀ issues : List SonarQubeIssue,
      (batch_issues_by_file issues).Perm issues ∧
        (batch_issues_by_file issues).Pairwise batchRel)
    ∧ batch_issues_by_file [exA5, exB1, exA10] = [exA10, exA5, exB1] := by
  refine ⟨fun issues => ⟨batch_perm issues, batch_pairwise issues⟩, ?_⟩
  rfl

/-! ## `validation/tree_sitter.py` — `detect_language_from_extension` -/

/-- The `extension_map` dict, in its (insertion-ordered) iteration order. -/
def extension_map : List (String × String) :=
  [(".py", "python"), (".js", "javascript"), (".ts", "typescript"),
   (".java", "java"), (".cpp", "cpp"), (".c", "c"), (".go", "go"),
   (".rs", "rust"), (".rb", "ruby"), (".php", "php")]

/-- `detect_language_from_extension`: the language of the first map entry
whose extension is a suffix of the path, else `None`. -/
def detect_language_from_extension (file_path : String) : Option String :=
  (extension_map.find? (fun p => p.1.data.isSuffixOf file_path.data)).map (·.2)

/-! ## `tools/diff_tool.py` — `generate_diff_stats`

The Unix `diff -u` binary is external; its stdout (already split at
newlines, as the Python loop over `result.stdout.split('\n')` sees it) is an
oracle `unixDiff`.  The counting of `+`/`-` lines and the line totals are the
repository's own code and are translated here. -/

/-- Python `str.splitlines` restricted to `\n` separators (the only
terminator occurring in the contents this system manipulates): no trailing
empty line for a trailing newline, and `[]` for the empty string. -/
def splitlinesAux : Str → Str → List Str
  | [], acc => [acc.reverse]
  | c :: t, acc =>
    if c = '\n' then
      match t with
      | [] => [acc.reverse]
      | _ :: _ => acc.reverse :: splitlinesAux t []
    else splitlinesAux t (c :: acc)

def splitlines (s : Str) : List Str := if s = [] then [] else splitlinesAux s []

/-- The statistics dict returned by `generate_diff_stats`. -/
structure DiffStats where
  additions : Nat
  deletions : Nat
  total_changes : Nat
  original_lines : Nat
  modified_lines : Nat
  deriving DecidableEq, Repr

/-- `generate_diff_stats(original, modified)` given the external diff output:
count lines starting with `+` (but not `+++`) and `-` (but not `---`), and
measure both contents with `splitlines`. -/
def generate_diff_stats (unixDiff : Str → Str → List Str) (original modified : Str) :
    DiffStats :=
  let out := unixDiff original modified
  let additions :=
    (out.filter (fun l => "+".data.isPrefixOf l && !("+++".data.isPrefixOf l))).length
  let deletions :=
    (out.filter (fun l => "-".data.isPrefixOf l && !("---".data.isPrefixOf l))).length
  { additions := additions, deletions := deletions,
    total_changes := additions + deletions,
    original_lines := (splitlines original).length,
    modified_lines := (splitlines modified).length }

/-! ## `models/fix.py` — result records, and the model's error values -/

inductive FixStatus where
  | success
  | failed
  | validation_error
  | skipped
  deriving DecidableEq, Repr

/-- The recoverable failures of `apply_fix`'s edit-generation block
(`json.JSONDecodeError`, the two `ValueError`s, and `EditError`), which its
`except` clause catches. -/
inductive ApplyErr where
  | jsonDecode
  | noEditsFound
  | missingCode (file : String)
  | editErr (e : EditError)
  deriving DecidableEq, Repr

/-- The information content of the `error_message` strings the workflow
builds (string formatting is not re-modelled; each constructor carries the
data interpolated into the corresponding f-string). -/
inductive ErrMsg where
  | editGenerationFailed (e : ApplyErr)
  | validationErrors (errs : List (String × List String))
  | excessiveChanges (total : Nat) (ratioFile : Option String)
  deriving DecidableEq, Repr

/-- `FixResult` (success record).  `diff` is the list of per-file diffs the
`combined_diff` string concatenates. -/
structure FixResult where
  issue_key : String
  file_path : String
  original_content : Str
  fixed_content : Str
  diff : List (String × String)
  status : FixStatus
  llm_provider : String
  iterations : Nat
  deriving DecidableEq, Repr

/-- `FailedFix` (terminal failure record). -/
structure FailedFix where
  issue_key : String
  file_path : String
  status : FixStatus
  error_message : ErrMsg
  llm_provider : String
  iterations : Nat
  deriving DecidableEq, Repr

/-- Python exceptions that escape a workflow node (nothing in the graph
catches them, so they abort the run). -/
inductive PyErr where
  | nameError (name : String)
  | zeroDivision
  | keyError (key : String)
  deriving DecidableEq, Repr

/-! ## The workflow state (`agent/state.py`) and its environment -/

/-- A Python `dict` keyed by strings, as an insertion-ordered association
list (iteration order matters for the size gate's `suspicious_file` and for
write order). -/
abbrev Dict (α : Type) := List (String × α)

def dictGet? {α : Type} : Dict α → String → Option α
  | [], _ => none
  | (k', v) :: rest, k => if k' = k then some v else dictGet? rest k

def dictSet {α : Type} : Dict α → String → α → Dict α
  | [], k, v => [(k, v)]
  | (k', v') :: rest, k, v =>
    if k' = k then (k, v) :: rest else (k', v') :: dictSet rest k v

def dictMem {α : Type} (d : Dict α) (k : String) : Bool := (dictGet? d k).isSome

/-- One invocation of the `write_file` tool (recorded so that theorems can
speak about which writes a run performs). -/
structure WriteCall where
  file_path : String
  content : Str
  dry_run : Bool
  deriving DecidableEq, Repr

/-- One edit object of the model's JSON reply: `file` is the optional
`"file"` key (defaulting to the issue's file), and `old_code`/`new_code` are
`edit.get("old_code", "")` / `edit.get("new_code", "")` (a missing key and an
empty string are indistinguishable, exactly as in the source). -/
structure EditJson where
  file : Option String
  old_code : Str
  new_code : Str
  deriving DecidableEq, Repr

/-- The decoded JSON object of a fix reply: the `"edits"` list
(`edit_data.get("edits", [])`) and the optional top-level legacy
`"old_code"`/`"new_code"` keys. -/
structure DecodedReply where
  edits : List EditJson
  legacyOld : Option Str
  legacyNew : Option Str
  deriving DecidableEq, Repr

/-- Outcome of `json.loads` on the (fence-stripped) LLM reply. -/
inductive FixReply where
  | malformed
  | decoded (d : DecodedReply)
  deriving DecidableEq, Repr

/-- The external collaborators, as oracles.  The LLM is an opaque
conversation → text function; since only the `apply_fix` reply influences
control flow, it is indexed by the apply-call counter.  `syntaxErrors` is
tree-sitter's `validate_syntax` error list (`valid ⇔ []`).  `unixDiff` is the
stdout of `diff -u` split at newlines, `diffText` the output of
`generate_diff`. -/
structure Env where
  reply : Nat → FixReply
  syntaxErrors : String → Str → List String
  unixDiff : Str → Str → List Str
  diffText : Str → Str → String → String

/-- `AgentState` (agent/state.py) plus the file system (`disk`) and two
pieces of instrumentation: the list of `write_file` invocations and the
number of `apply_fix` / `validate_fix` executions.  `msgCount` stands for
`len(state["messages"])`: the message *texts* never influence control flow
(they are consumed only by the LLM oracle). -/
structure AgentState where
  repo_path : String
  issues : List SonarQubeIssue
  dry_run : Bool
  llm_provider : String
  current_issue_index : Nat
  current_issue : Option SonarQubeIssue
  msgCount : Nat
  successful_fixes : List FixResult
  failed_fixes : List FailedFix
  retry_count : Nat
  max_retries : Nat
  max_lines_changed : Nat
  max_change_ratio : ℚ
  validation_passed : Bool
  temp_fixed_content : Option Str
  temp_original_content : Option Str
  temp_modified_files : Option (Dict Str)
  file_cache : Dict Str
  disk : String → Str
  writes : List WriteCall
  applyCalls : Nat
  validateCalls : Nat

/-- A node's result: either the updated state, or an uncaught Python
exception together with the state as mutated up to the raise (Python dict
mutations survive the exception). -/
abbrev NodeResult := Except (PyErr × AgentState) AgentState

/-! ## `tools/file_writer.py` — `write_file`, `tools/file_reader.py` — `read_file` -/

/-- `write_file`: with `dry_run` the disk is untouched and the status is
`"dry_run"`; otherwise the file is (successfully) written. -/
def write_file (disk : String → Str) (file_path : String) (content : Str)
    (dry_run : Bool) : (String → Str) × String :=
  if dry_run then (disk, "dry_run")
  else (fun p => if p = file_path then content else disk p, "success")

/-- `read_file`: reads always succeed in the model (the workflow only reads
paths named by its issues/edits). -/
def read_file (disk : String → Str) (file_path : String) : Str := disk file_path

/-! ## `agent/nodes.py` — the five workflow nodes -/

/-- `select_next_issue`: past the end of the list, clear the current issue
(the retry counter is *not* touched); otherwise select `issues[index]` and
reset the retry counter to zero. -/
def select_next_issue (s : AgentState) : AgentState :=
  if h : s.current_issue_index ≥ s.issues.length then
    { s with current_issue := none }
  else
    { s with
      current_issue := some (s.issues.get ⟨s.current_issue_index, by omega⟩),
      retry_count := 0 }

/-- `analyze_issue`: populate the file cache for the issue's file if absent
(reading from disk), then build the analysis prompt and call the LLM.  The
locator / cross-reference / rule-description lookups only contribute prompt
text (and swallow their own failures), so they do not appear in the state
transition; the node appends two messages (prompt and reply). -/
def analyze_issue (s : AgentState) : AgentState :=
  match s.current_issue with
  | none => s
  | some issue =>
    let file_path := get_file_path issue
    let s1 :=
      if dictMem s.file_cache file_path then s
      else { s with file_cache := dictSet s.file_cache file_path (read_file s.disk file_path) }
    { s1 with msgCount := s1.msgCount + 2 }

/-- Loading a not-yet-touched file into the accumulating map (nodes.py
274-287): from the cache if present, else from disk (without updating the
cache). -/
def loadTarget (cache : Dict Str) (disk : String → Str) (acc : Dict Str)
    (target_path : String) : Dict Str :=
  if dictMem acc target_path then acc
  else
    match dictGet? cache target_path with
    | some c => dictSet acc target_path c
    | none => dictSet acc target_path (read_file disk target_path)

/-- The sequential edit-application loop of `apply_fix` (nodes.py 266-297):
resolve the target path, reject an edit with empty `old_code` or `new_code`,
load a not-yet-touched file from the cache or from disk into the accumulating
map, and apply the uniqueness-checked edit to the accumulating content. -/
def applyEditsLoop (cache : Dict Str) (disk : String → Str) (file_path : String) :
    List EditJson → Dict Str → Except ApplyErr (Dict Str)
  | [], acc => .ok acc
  | e :: rest, acc =>
    let target_path := e.file.getD file_path
    if e.old_code = [] ∨ e.new_code = [] then .error (.missingCode target_path)
    else
      let acc1 := loadTarget cache disk acc target_path
      match apply_edit ((dictGet? acc1 target_path).getD []) e.old_code e.new_code with
      | .error ee => .error (.editErr ee)
      | .ok newC => applyEditsLoop cache disk file_path rest (dictSet acc1 target_path newC)

/-- The retry/escalate handler shared by `apply_fix`'s `except` clause and
both rejection branches of `validate_fix` (nodes.py 301-329, 374-406,
447-476): bump the retry counter; at the configured maximum synthesize a
`FailedFix` and advance the issue index, otherwise append one feedback
message. -/
def rejectCandidate (s : AgentState) (issue : SonarQubeIssue) (file_path : String)
    (status : FixStatus) (msg : ErrMsg) (passedFlag : Bool) : AgentState :=
  if s.retry_count + 1 ≥ s.max_retries then
    { s with
      retry_count := s.retry_count + 1
      validation_passed := passedFlag
      failed_fixes := s.failed_fixes ++
        [⟨issue.key, file_path, status, msg, s.llm_provider, s.retry_count + 1⟩]
      current_issue_index := s.current_issue_index + 1 }
  else
    { s with
      retry_count := s.retry_count + 1
      validation_passed := passedFlag
      msgCount := s.msgCount + 1 }

/-- The cache-first read of the issue's file at the top of `apply_fix`
(nodes.py 195-206): returns the content and the state (with the cache
populated after a disk read). -/
def applyReadContent (s : AgentState) (file_path : String) : Str × AgentState :=
  match dictGet? s.file_cache file_path with
  | some c => (c, s)
  | none =>
    let c := read_file s.disk file_path
    (c, { s with file_cache := dictSet s.file_cache file_path c })

/-- `apply_fix` (nodes.py 180-340): read the issue's file (cache first,
caching a disk read), call the LLM, decode its reply (`"edits"` list, else
the legacy flat shape — whose missing `"new_code"` key would be an uncaught
`KeyError`), reject empty edit lists, apply all edits sequentially, and on
any recoverable failure run the retry/escalate handler.  On success the
candidate is stashed in the three `_temp_*` fields and two messages are
appended. -/
def apply_fix (env : Env) (s : AgentState) : NodeResult :=
  match s.current_issue with
  | none => .ok s
  | some issue =>
    let file_path := get_file_path issue
    let rc := applyReadContent s file_path
    let original_content := rc.1
    let s0 := rc.2
    let s1 := { s0 with applyCalls := s0.applyCalls + 1 }
    match env.reply s0.applyCalls with
    | .malformed => .ok (rejectCandidate s1 issue file_path .validation_error
        (.editGenerationFailed .jsonDecode) s1.validation_passed)
    | .decoded d =>
      let edits := d.edits
      match edits, d.legacyOld with
      | [], some oldc =>
        match d.legacyNew with
        | none => .error (.keyError "new_code", s1)
        | some newc =>
          let edits := [⟨some file_path, oldc, newc⟩]
          match applyEditsLoop s1.file_cache s1.disk file_path edits
              [(file_path, original_content)] with
          | .error e => .ok (rejectCandidate s1 issue file_path .validation_error
              (.editGenerationFailed e) s1.validation_passed)
          | .ok modified =>
            .ok { s1 with
              msgCount := s1.msgCount + 2,
              temp_fixed_content := some ((dictGet? modified file_path).getD []),
              temp_original_content := some original_content,
              temp_modified_files := some modified }
      | [], none => .ok (rejectCandidate s1 issue file_path .validation_error
          (.editGenerationFailed .noEditsFound) s1.validation_passed)
      | _ :: _, _ =>
        match applyEditsLoop s1.file_cache s1.disk file_path edits
            [(file_path, original_content)] with
        | .error e => .ok (rejectCandidate s1 issue file_path .validation_error
            (.editGenerationFailed e) s1.validation_passed)
        | .ok modified =>
          .ok { s1 with
            msgCount := s1.msgCount + 2,
            temp_fixed_content := some ((dictGet? modified file_path).getD []),
            temp_original_content := some original_content,
            temp_modified_files := some modified }

/-- The syntax gate of `validate_fix` (nodes.py 364-372): only files whose
extension detects a language are checked; each invalid file contributes one
`File {path}: ...` entry (carried here as the path with tree-sitter's error
list). -/
def syntaxCheckOne (env : Env) (pc : String × Str) : Option (String × List String) :=
  match detect_language_from_extension pc.1 with
  | some lang =>
    match env.syntaxErrors lang pc.2 with
    | [] => none
    | errs => some (pc.1, errs)
  | none => none

def syntaxGateErrors (env : Env) (files : Dict Str) : List (String × List String) :=
  files.filterMap (syntaxCheckOne env)

/-- The size gate's per-file baseline (nodes.py 420-427): the cached content,
re-read from disk when the cache entry is missing *or falsy* (the empty
string). -/
def baselineOf (cache : Dict Str) (disk : String → Str) (p : String) : Str :=
  match dictGet? cache p with
  | some o => if o = [] then read_file disk p else o
  | none => read_file disk p

/-- The per-file changed-line count of the size gate
(`stats["additions"] + stats["deletions"]`). -/
def changedOf (env : Env) (cache : Dict Str) (disk : String → Str)
    (pc : String × Str) : Nat :=
  let stats := generate_diff_stats env.unixDiff (baselineOf cache disk pc.1) pc.2
  stats.additions + stats.deletions

/-- The per-file original line count used as the ratio's denominator. -/
def origLinesOf (env : Env) (cache : Dict Str) (disk : String → Str)
    (pc : String × Str) : Nat :=
  (generate_diff_stats env.unixDiff (baselineOf cache disk pc.1) pc.2).original_lines

/-- The per-file change ratio `(additions + deletions) / max(file_lines, 1)`
of nodes.py line 433, as an exact rational (the Python floats involved are
exact enough that the `> 0.1`-style comparisons below agree with the exact
rational comparisons for any file of fewer than about 10^15 lines). -/
def ratioOf (env : Env) (cache : Dict Str) (disk : String → Str)
    (pc : String × Str) : ℚ :=
  (changedOf env cache disk pc : ℚ) / ((max (origLinesOf env cache disk pc) 1 : Nat) : ℚ)

/-- Executable form of `ratio > max_change_ratio` by cross-multiplication
(`ratioExceeds_iff` proves it equal to the rational comparison). -/
def ratioExceeds (changed lines : Nat) (maxRatio : ℚ) : Bool :=
  maxRatio.num * ((max lines 1 : Nat) : Int) < (changed : Int) * (maxRatio.den : Int)

theorem ratioExceeds_iff (changed lines : Nat) (maxRatio : ℚ) :
    ratioExceeds changed lines maxRatio = true ↔
      (changed : ℚ) / ((max lines 1 : Nat) : ℚ) > maxRatio := by
  unfold ratioExceeds
  have hm : (0 : ℚ) < ((max lines 1 : Nat) : ℚ) := by
    have : 1 ≤ max lines 1 := le_max_right lines 1
    exact_mod_cast Nat.lt_of_lt_of_le Nat.zero_lt_one this
  have hden : (0 : ℚ) < (maxRatio.den : ℚ) := by exact_mod_cast maxRatio.den_pos
  rw [gt_iff_lt, lt_div_iff₀ hm, decide_eq_true_eq]
  constructor
  · intro h
    have h2 : maxRatio * ((max lines 1 : Nat) : ℚ) * (maxRatio.den : ℚ) <
        (changed : ℚ) * (maxRatio.den : ℚ) := by
      have hq : (maxRatio.num : ℚ) * ((max lines 1 : Nat) : ℚ) <
          (changed : ℚ) * (maxRatio.den : ℚ) := by exact_mod_cast h
      calc maxRatio * ((max lines 1 : Nat) : ℚ) * (maxRatio.den : ℚ)
          = maxRatio * (maxRatio.den : ℚ) * ((max lines 1 : Nat) : ℚ) := by ring
        _ = (maxRatio.num : ℚ) * ((max lines 1 : Nat) : ℚ) := by
            rw [Rat.mul_den_eq_num]
        _ < (changed : ℚ) * (maxRatio.den : ℚ) := hq
    exact lt_of_mul_lt_mul_right h2 (le_of_lt hden)
  · intro h
    have h2 : maxRatio * ((max lines 1 : Nat) : ℚ) * (maxRatio.den : ℚ) <
        (changed : ℚ) * (maxRatio.den : ℚ) :=
      mul_lt_mul_of_pos_right h hden
    have h3 : (maxRatio.num : ℚ) * ((max lines 1 : Nat) : ℚ) <
        (changed : ℚ) * (maxRatio.den : ℚ) := by
      calc (maxRatio.num : ℚ) * ((max lines 1 : Nat) : ℚ)
          = maxRatio * (maxRatio.den : ℚ) * ((max lines 1 : Nat) : ℚ) := by
            rw [Rat.mul_den_eq_num]
        _ = maxRatio * ((max lines 1 : Nat) : ℚ) * (maxRatio.den : ℚ) := by ring
        _ < (changed : ℚ) * (maxRatio.den : ℚ) := h2
    exact_mod_cast h3

/-- One step of the size-gate loop of `validate_fix` (nodes.py 419-445),
accumulating `(total_lines_changed, max_ratio_exceeded, suspicious_file,
combined_diff)`. -/
def sizeGateStep (env : Env) (cache : Dict Str) (disk : String → Str)
    (maxRatio : ℚ) (acc : Nat × Bool × String × List (String × String))
    (pc : String × Str) : Nat × Bool × String × List (String × String) :=
  let changed := changedOf env cache disk pc
  let exceeds := ratioExceeds changed (origLinesOf env cache disk pc) maxRatio
  ( acc.1 + changed,
    if exceeds then true else acc.2.1,
    if exceeds then pc.1 else acc.2.2.1,
    acc.2.2.2 ++ [(pc.1, env.diffText (baselineOf cache disk pc.1) pc.2 pc.1)] )

/-- Candidate recovery at the top of `validate_fix` (nodes.py 354-362,
Python truthiness included): the `_temp_modified_files` dict unless absent or
empty, else the single-file fallback from `_temp_fixed_content` unless that
is absent or empty. -/
def filesOf (temp_modified_files : Option (Dict Str)) (temp_fixed_content : Option Str)
    (file_path : String) : Option (Dict Str) :=
  match temp_modified_files with
  | some d => if d = [] then none else some d
  | none =>
    match temp_fixed_content with
    | some c => if c = [] then none else some [(file_path, c)]
    | none => none

/-- One write of the acceptance loop (nodes.py 482-490): invoke `write_file`
(a dry run leaves the disk untouched) and update the per-file cache with the
new content. -/
def writeStep (st : AgentState) (pc : String × Str) : AgentState :=
  let w := write_file st.disk pc.1 pc.2 st.dry_run
  { st with
    disk := w.1
    writes := st.writes ++ [⟨pc.1, pc.2, st.dry_run⟩]
    file_cache := dictSet st.file_cache pc.1 pc.2 }

/-- `validate_fix` (nodes.py 343-507).  Recover the candidate from the temp
fields (Python truthiness: an absent or empty dict falls back to the single
`_temp_fixed_content`, itself skipped when absent or empty); run the syntax
gate, then the size gate, rejections going through the retry/escalate
handler; on acceptance write every touched file (respecting `dry_run`),
update the cache — and then raise `NameError`, because the `FixResult`
constructor call reads the undefined local `original_content`. -/
def validate_fix (env : Env) (s : AgentState) : NodeResult :=
  match s.current_issue with
  | none => .ok s
  | some issue =>
    let file_path := get_file_path issue
    let sv := { s with validateCalls := s.validateCalls + 1 }
    match filesOf sv.temp_modified_files sv.temp_fixed_content file_path with
    | none => .ok sv
    | some files =>
      let validation_errors := syntaxGateErrors env files
      if validation_errors ≠ [] then
        .ok (rejectCandidate sv issue file_path .validation_error
          (.validationErrors validation_errors) false)
      else
        let res := files.foldl (sizeGateStep env sv.file_cache sv.disk sv.max_change_ratio)
          (0, false, "", [])
        let total := res.1
        let exceeded := res.2.1
        let suspicious := res.2.2.1
        if total > sv.max_lines_changed || exceeded then
          .ok (rejectCandidate sv issue file_path .validation_error
            (.excessiveChanges total (if exceeded then some suspicious else none)) false)
        else
          .error (.nameError "original_content",
            files.foldl writeStep { sv with validation_passed := true })

/-- The summary numbers `finalize` interpolates into its report string
(`successful/total_issues*100`). -/
structure Summary where
  total_issues : Nat
  successful : Nat
  failed : Nat
  success_rate : ℚ
  deriving DecidableEq, Repr

def summaryOf (s : AgentState) : Summary :=
  { total_issues := s.issues.length,
    successful := s.successful_fixes.length,
    failed := s.failed_fixes.length,
    success_rate := (s.successful_fixes.length : ℚ) / (s.issues.length : ℚ) * 100 }

/-- `finalize` (nodes.py 510-530): computes the totals and appends the
summary message — dividing by `total_issues`, which raises
`ZeroDivisionError` when the issue list is empty. -/
def finalize (s : AgentState) : NodeResult :=
  if s.issues.length = 0 then .error (.zeroDivision, s)
  else .ok { s with msgCount := s.msgCount + 1 }

/-! ## `agent/graph.py` — routing and the run loop -/

inductive NodeTag where
  | selectNext
  | analyzeTag
  | applyTag
  | validateTag
  | finalizeTag
  | terminal
  deriving DecidableEq, Repr

/-- `should_continue`: after `select_next`, finalize iff no current issue. -/
def should_continue (s : AgentState) : NodeTag :=
  match s.current_issue with
  | none => .finalizeTag
  | some _ => .analyzeTag

/-- `should_retry`: after `validate`, move on iff the retry budget is
exhausted or the last validation passed, else retry `apply`. -/
def should_retry (s : AgentState) : NodeTag :=
  if s.retry_count ≥ s.max_retries then .selectNext
  else if s.validation_passed then .selectNext
  else .applyTag

/-- One node execution plus the graph's outgoing edge. -/
def stepNode (env : Env) (s : AgentState) : NodeTag →
    Except (PyErr × AgentState) (AgentState × NodeTag)
  | .selectNext =>
    let s' := select_next_issue s
    .ok (s', should_continue s')
  | .analyzeTag => .ok (analyze_issue s, .applyTag)
  | .applyTag => (apply_fix env s).map (fun s' => (s', .validateTag))
  | .validateTag => (validate_fix env s).map (fun s' => (s', should_retry s'))
  | .finalizeTag => (finalize s).map (fun s' => (s', .terminal))
  | .terminal => .ok (s, .terminal)

/-- Run the graph for at most `fuel` node executions. -/
def runFuel (env : Env) : Nat → AgentState → NodeTag →
    Except (PyErr × AgentState) (AgentState × NodeTag)
  | 0, s, t => .ok (s, t)
  | fuel + 1, s, t =>
    match t with
    | .terminal => .ok (s, .terminal)
    | _ =>
      match stepNode env s t with
      | .error e => .error e
      | .ok (s', t') => runFuel env fuel s' t'

/-- A whole run: the graph's entry point is `select_next`. -/
def runWorkflow (env : Env) (fuel : Nat) (s : AgentState) :
    Except (PyErr × AgentState) (AgentState × NodeTag) :=
  runFuel env fuel s .selectNext

/-! ## Size-gate fold lemmas -/

theorem sizeGate_total (env : Env) (cache : Dict Str) (disk : String → Str)
    (maxRatio : ℚ) :
    ∀ (files : Dict Str) (acc : Nat × Bool × String × List (String × String)),
      (files.foldl (sizeGateStep env cache disk maxRatio) acc).1 =
        acc.1 + (files.map (changedOf env cache disk)).sum := by
  intro files
  induction files with
  | nil => intro acc; simp
  | cons pc rest ih =>
    intro acc
    simp only [List.foldl_cons, List.map_cons, List.sum_cons, ih]
    simp [sizeGateStep]
    omega

theorem sizeGate_exceeded (env : Env) (cache : Dict Str) (disk : String → Str)
    (maxRatio : ℚ) :
    ∀ (files : Dict Str) (acc : Nat × Bool × String × List (String × String)),
      (files.foldl (sizeGateStep env cache disk maxRatio) acc).2.1 =
        (acc.2.1 || files.any (fun pc =>
          ratioExceeds (changedOf env cache disk pc) (origLinesOf env cache disk pc)
            maxRatio)) := by
  intro files
  induction files with
  | nil => intro acc; simp
  | cons pc rest ih =>
    intro acc
    simp only [List.foldl_cons, List.any_cons, ih]
    by_cases hex : ratioExceeds (changedOf env cache disk pc)
        (origLinesOf env cache disk pc) maxRatio
    · simp [sizeGateStep, hex]
    · simp [sizeGateStep, hex]

theorem sizeGate_suspicious (env : Env) (cache : Dict Str) (disk : String → Str)
    (maxRatio : ℚ) :
    ∀ (files : Dict Str) (acc : Nat × Bool × String × List (String × String)),
      (files.foldl (sizeGateStep env cache disk maxRatio) acc).2.1 = true →
        (acc.2.1 = true ∧
          (files.foldl (sizeGateStep env cache disk maxRatio) acc).2.2.1 = acc.2.2.1) ∨
        ∃ pc ∈ files,
          ratioExceeds (changedOf env cache disk pc) (origLinesOf env cache disk pc)
              maxRatio = true ∧
            (files.foldl (sizeGateStep env cache disk maxRatio) acc).2.2.1 = pc.1 := by
  intro files
  induction files with
  | nil => intro acc h; exact Or.inl ⟨h, rfl⟩
  | cons pc rest ih =>
    intro acc h
    rw [List.foldl_cons] at h ⊢
    by_cases hex : ratioExceeds (changedOf env cache disk pc)
        (origLinesOf env cache disk pc) maxRatio
    · rcases ih (sizeGateStep env cache disk maxRatio acc pc) h with ⟨_, hs⟩ | ⟨qc, hq, hex', hs⟩
      · refine Or.inr ⟨pc, List.mem_cons_self pc rest, hex, ?_⟩
        rw [hs]; simp [sizeGateStep, hex]
      · exact Or.inr ⟨qc, List.mem_cons_of_mem pc hq, hex', hs⟩
    · rcases ih (sizeGateStep env cache disk maxRatio acc pc) h with ⟨ha, hs⟩ | ⟨qc, hq, hex', hs⟩
      · refine Or.inl ⟨?_, ?_⟩
        · revert ha; simp [sizeGateStep, hex]
        · rw [hs]; simp [sizeGateStep, hex]
      · exact Or.inr ⟨qc, List.mem_cons_of_mem pc hq, hex', hs⟩

/-- The default `max_change_ratio` of 0.1 (`--max-change-ratio` default). -/
def ratTenth : ℚ := ⟨1, 10, by decide, Nat.coprime_one_left 10⟩

/-- A 40-line file: 40 copies of the line `x`. -/
def exOrig40 : Str := (List.replicate 40 ['x', '\n']).flatten

/-- Environment for the C3 example: the external diff reports five added
lines for any pair of contents; the parser finds no errors. -/
def exEnvC3 : Env :=
  { reply := fun _ => .malformed,
    syntaxErrors := fun _ _ => [],
    unixDiff := fun _ _ => ["+a".data, "+b".data, "+c".data, "+d".data, "+e".data],
    diffText := fun _ _ _ => "" }

def exCacheC3 : Dict Str := [("sample.py", exOrig40)]

def exDiskC3 : String → Str := fun _ => []

def exFilesC3 : Dict Str := [("sample.py", "new".data)]

/-- C3: the change-size gate of `validate_fix` rejects a candidate exactly
when the summed changed-line count exceeds the absolute threshold OR some
touched file's change ratio exceeds the configured fraction; when the ratio
arm fires, `suspicious_file` (the file the diagnostic names) is a touched
file whose ratio exceeds the fraction; and on a 40-line file with 5 changed
lines (ratio 0.125) under the defaults `max_lines_changed = 30`,
`max_change_ratio = 0.1`, the candidate is rejected with the file named even
though 5 < 30. -/
theorem size_gate_spec :
    (∀ (env : Env) (cache : Dict Str) (disk : String → Str)
        (maxLines : Nat) (maxRatio : ℚ) (files : Dict Str),
      ((decide ((files.foldl (sizeGateStep env cache disk maxRatio)
            (0, false, "", [])).1 > maxLines)
          || (files.foldl (sizeGateStep env cache disk maxRatio)
            (0, false, "", [])).2.1) = true ↔
        ((files.map (changedOf env cache disk)).sum > maxLines ∨
          ∃ pc ∈ files, ratioOf env cache disk pc > maxRatio)))
    ∧ (∀ (env : Env) (cache : Dict Str) (disk : String → Str)
        (maxRatio : ℚ) (files : Dict Str),
        (files.foldl (sizeGateStep env cache disk maxRatio) (0, false, "", [])).2.1 = true →
        ∃ pc ∈ files, ratioOf env cache disk pc > maxRatio ∧
          (files.foldl (sizeGateStep env cache disk maxRatio) (0, false, "", [])).2.2.1 = pc.1)
    ∧ ((exFilesC3.foldl (sizeGateStep exEnvC3 exCacheC3 exDiskC3 ratTenth)
          (0, false, "", [])).1 = 5 ∧
        ¬ ((exFilesC3.foldl (sizeGateStep exEnvC3 exCacheC3 exDiskC3 ratTenth)
          (0, false, "", [])).1 > 30) ∧
        (exFilesC3.foldl (sizeGateStep exEnvC3 exCacheC3 exDiskC3 ratTenth)
          (0, false, "", [])).2.1 = true ∧
        (exFilesC3.foldl (sizeGateStep exEnvC3 exCacheC3 exDiskC3 ratTenth)
          (0, false, "", [])).2.2.1 = "sample.py") := by
  refine ⟨?_, ?_, by decide, by decide, by decide, by decide⟩
  · intro env cache disk maxLines maxRatio files
    rw [Bool.or_eq_true, decide_eq_true_eq, sizeGate_total, sizeGate_exceeded]
    simp only [Nat.zero_add, Bool.false_or, List.any_eq_true]
    constructor
    · rintro (h | ⟨pc, hpc, hex⟩)
      · exact Or.inl h
      · exact Or.inr ⟨pc, hpc, (ratioExceeds_iff _ _ _).mp hex⟩
    · rintro (h | ⟨pc, hpc, hr⟩)
      · exact Or.inl h
      · exact Or.inr ⟨pc, hpc, (ratioExceeds_iff _ _ _).mpr hr⟩
  · intro env cache disk maxRatio files h
    rcases sizeGate_suspicious env cache disk maxRatio files (0, false, "", []) h with
      ⟨hfalse, _⟩ | ⟨pc, hpc, hex, hs⟩
    · cases hfalse
    · exact ⟨pc, hpc, (ratioExceeds_iff _ _ _).mp hex, hs⟩

/-- Closed witness for `size_gate_spec`: the C3 example discharges the
suspicious-file implication. -/
theorem size_gate_spec_witness :
    ∃ pc ∈ exFilesC3, ratioOf exEnvC3 exCacheC3 exDiskC3 pc > ratTenth ∧
      (exFilesC3.foldl (sizeGateStep exEnvC3 exCacheC3 exDiskC3 ratTenth)
        (0, false, "", [])).2.2.1 = pc.1 :=
  size_gate_spec.2.1 exEnvC3 exCacheC3 exDiskC3 ratTenth exFilesC3 (by decide)

theorem syntaxCheckOne_some {env : Env} {pc : String × Str} {e : String × List String}
    (h : syntaxCheckOne env pc = some e) :
    e.1 = pc.1 ∧ (detect_language_from_extension pc.1).isSome = true := by
  unfold syntaxCheckOne at h
  split at h
  · rename_i lang hdet
    split at h
    · exact absurd h (by simp)
    · cases h
      exact ⟨rfl, by rw [hdet]; rfl⟩
  · exact absurd h (by simp)

/-- An environment whose parser oracle reports a syntax error for every file
it is asked about (used to show files with unrecognized extensions are never
asked about). -/
def exEnvBadParse : Env :=
  { reply := fun _ => .malformed,
    syntaxErrors := fun _ _ => ["Syntax error at line 1"],
    unixDiff := fun _ _ => [],
    diffText := fun _ _ _ => "" }

/-- C10: the syntax gate of `validate_fix` consults the parser only for
touched files whose extension detects one of the ten languages of
`extension_map`; a file with an unrecognized extension is silently skipped
(removing such files from the candidate changes nothing, and every reported
error names a detected file — so even a parser that rejects everything cannot
reject `foo.xyz`), while the change-size gate still counts every touched file
in the total and tests every touched file's ratio, extension or not. -/
theorem syntax_gate_extension_spec :
    extension_map.length = 10
    ∧ (∀ (env : Env) (files : Dict Str),
        syntaxGateErrors env files =
          syntaxGateErrors env
            (files.filter (fun pc => (detect_language_from_extension pc.1).isSome)))
    ∧ (∀ (env : Env) (files : Dict Str) (e : String × List String),
        e ∈ syntaxGateErrors env files → (detect_language_from_extension e.1).isSome)
    ∧ (∀ (env : Env) (cache : Dict Str) (disk : String → Str) (maxRatio : ℚ)
        (files : Dict Str) (acc : Nat × Bool × String × List (String × String)),
        (files.foldl (sizeGateStep env cache disk maxRatio) acc).1 =
          acc.1 + (files.map (changedOf env cache disk)).sum)
    ∧ (∀ (env : Env) (cache : Dict Str) (disk : String → Str) (maxRatio : ℚ)
        (files : Dict Str) (pc : String × Str), pc ∈ files →
        ratioOf env cache disk pc > maxRatio →
        (files.foldl (sizeGateStep env cache disk maxRatio) (0, false, "", [])).2.1 = true)
    ∧ syntaxGateErrors exEnvBadParse [("foo.xyz", "garbage".data)] = [] := by
  refine ⟨rfl, ?_, ?_, sizeGate_total, ?_, by decide⟩
  · intro env files
    unfold syntaxGateErrors
    induction files with
    | nil => rfl
    | cons pc rest ih =>
      by_cases hd : (detect_language_from_extension pc.1).isSome
      · simp only [List.filter_cons, hd, if_true, List.filterMap_cons, ih]
      · have hnone : detect_language_from_extension pc.1 = none :=
          Option.not_isSome_iff_eq_none.mp (by simpa using hd)
        simp only [List.filter_cons, hd, if_false, Bool.false_eq_true, List.filterMap_cons,
          show syntaxCheckOne env pc = none by simp [syntaxCheckOne, hnone], ih]
  · intro env files e he
    rcases List.mem_filterMap.mp he with ⟨pc, hpc, hf⟩
    have h := syntaxCheckOne_some hf
    rw [h.1]
    exact h.2
  · intro env cache disk maxRatio files pc hpc hr
    rw [sizeGate_exceeded]
    simp only [Bool.false_or, List.any_eq_true]
    exact ⟨pc, hpc, (ratioExceeds_iff _ _ _).mpr hr⟩

/-- Closed witness for `syntax_gate_extension_spec`: discharges the
error-membership and ratio implications at concrete inputs. -/
theorem syntax_gate_extension_spec_witness :
    (detect_language_from_extension "a.py").isSome = true ∧
      (exFilesC3.foldl (sizeGateStep exEnvC3 exCacheC3 exDiskC3 ratTenth)
        (0, false, "", [])).2.1 = true :=
  ⟨syntax_gate_extension_spec.2.2.1 exEnvBadParse [("a.py", [])]
      ("a.py", ["Syntax error at line 1"]) (by decide),
    syntax_gate_extension_spec.2.2.2.2.1 exEnvC3 exCacheC3 exDiskC3 ratTenth exFilesC3
      ("sample.py", "new".data) (by decide)
      ((ratioExceeds_iff 5 40 ratTenth).mp (by decide))⟩

/-! ## Frame lemmas for the retry/escalate handler and `apply_fix` -/

theorem rejectCandidate_frame (s : AgentState) (issue : SonarQubeIssue) (fp : String)
    (st : FixStatus) (msg : ErrMsg) (b : Bool) :
    (rejectCandidate s issue fp st msg b).temp_modified_files = s.temp_modified_files ∧
    (rejectCandidate s issue fp st msg b).temp_fixed_content = s.temp_fixed_content ∧
    (rejectCandidate s issue fp st msg b).temp_original_content = s.temp_original_content ∧
    (rejectCandidate s issue fp st msg b).writes = s.writes ∧
    (rejectCandidate s issue fp st msg b).retry_count = s.retry_count + 1 ∧
    (rejectCandidate s issue fp st msg b).successful_fixes = s.successful_fixes ∧
    (rejectCandidate s issue fp st msg b).file_cache = s.file_cache ∧
    (rejectCandidate s issue fp st msg b).disk = s.disk := by
  unfold rejectCandidate
  split <;> simp

theorem applyEditsLoop_error_of_empty (cache : Dict Str) (disk : String → Str)
    (fp : String) :
    ∀ (edits : List EditJson) (acc : Dict Str),
      (∃ e ∈ edits, e.old_code = [] ∨ e.new_code = []) →
      ∃ err, applyEditsLoop cache disk fp edits acc = .error err := by
  intro edits
  induction edits with
  | nil =>
    rintro acc ⟨e, he, _⟩
    exact absurd he (List.not_mem_nil e)
  | cons e rest ih =>
    rintro acc ⟨e', he', hempty⟩
    by_cases hhead : e.old_code = [] ∨ e.new_code = []
    · exact ⟨.missingCode (e.file.getD fp), by simp only [applyEditsLoop]; rw [if_pos hhead]⟩
    · have he'' : e' ∈ rest := by
        rcases List.mem_cons.mp he' with rfl | h
        · exact absurd hempty hhead
        · exact h
      simp only [applyEditsLoop]
      rw [if_neg hhead]
      cases happ : apply_edit
          ((dictGet? (loadTarget cache disk acc (e.file.getD fp)) (e.file.getD fp)).getD [])
          e.old_code e.new_code with
      | error ee => exact ⟨.editErr ee, rfl⟩
      | ok newC =>
        obtain ⟨err, herr⟩ := ih
          (dictSet (loadTarget cache disk acc (e.file.getD fp)) (e.file.getD fp) newC)
          ⟨e', he'', hempty⟩
        exact ⟨err, herr⟩

theorem applyReadContent_frame (s : AgentState) (fp : String) :
    (applyReadContent s fp).2.applyCalls = s.applyCalls ∧
    (applyReadContent s fp).2.temp_modified_files = s.temp_modified_files ∧
    (applyReadContent s fp).2.temp_fixed_content = s.temp_fixed_content ∧
    (applyReadContent s fp).2.temp_original_content = s.temp_original_content ∧
    (applyReadContent s fp).2.writes = s.writes ∧
    (applyReadContent s fp).2.retry_count = s.retry_count ∧
    (applyReadContent s fp).2.successful_fixes = s.successful_fixes ∧
    (applyReadContent s fp).2.max_retries = s.max_retries ∧
    (applyReadContent s fp).2.disk = s.disk := by
  unfold applyReadContent
  split <;> simp

/-- C9: an edit whose `old_code` *or* `new_code` is the empty string is
rejected by `apply_fix`'s edit loop with the `Missing old_code or new_code`
`ValueError` — checked before anything is loaded or applied — and any
candidate containing such an edit fails as a whole, sending `apply_fix`
through the recoverable retry/escalate path: no `_temp_*` field is set, no
write happens, the retry counter is bumped.  So a pure-deletion edit
(non-empty `old_code`, empty `new_code`) can never be applied by the
workflow, even though `apply_edit` itself happily accepts an empty
replacement (last conjunct). -/
theorem apply_fix_rejects_empty_code_spec :
    (∀ (cache : Dict Str) (disk : String → Str) (fp : String)
        (e : EditJson) (rest : List EditJson) (acc : Dict Str),
        e.old_code = [] ∨ e.new_code = [] →
        applyEditsLoop cache disk fp (e :: rest) acc =
          .error (.missingCode (e.file.getD fp)))
    ∧ (∀ (cache : Dict Str) (disk : String → Str) (fp : String)
        (edits : List EditJson) (acc : Dict Str),
        (∃ e ∈ edits, e.old_code = [] ∨ e.new_code = []) →
        ∃ err, applyEditsLoop cache disk fp edits acc = .error err)
    ∧ (∀ (env : Env) (s : AgentState) (issue : SonarQubeIssue) (d : DecodedReply),
        s.current_issue = some issue →
        env.reply s.applyCalls = .decoded d →
        (∃ e ∈ d.edits, e.old_code = [] ∨ e.new_code = []) →
        ∃ s', apply_fix env s = .ok s' ∧
          s'.temp_modified_files = s.temp_modified_files ∧
          s'.temp_fixed_content = s.temp_fixed_content ∧
          s'.temp_original_content = s.temp_original_content ∧
          s'.writes = s.writes ∧
          s'.retry_count = s.retry_count + 1 ∧
          s'.successful_fixes = s.successful_fixes)
    ∧ apply_edit "ab".data "a".data [] = .ok "b".data := by
  refine ⟨?_, applyEditsLoop_error_of_empty, ?_, rfl⟩
  · intro cache disk fp e rest acc hhead
    simp only [applyEditsLoop]
    rw [if_pos hhead]
  · intro env s issue d hiss hreply hex
    obtain ⟨e0, he0, hem⟩ := hex
    cases hedits : d.edits with
    | nil => rw [hedits] at he0; exact absurd he0 (List.not_mem_nil e0)
    | cons a rest =>
      rw [hedits] at he0
      have hcalls := (applyReadContent_frame s (get_file_path issue)).1
      simp only [apply_fix, hiss]
      rw [hcalls, hreply]
      dsimp only
      rw [hedits]
      dsimp only
      obtain ⟨err, herr⟩ := applyEditsLoop_error_of_empty
        ({ (applyReadContent s (get_file_path issue)).2 with
            applyCalls := (applyReadContent s (get_file_path issue)).2.applyCalls + 1 }).file_cache
        ({ (applyReadContent s (get_file_path issue)).2 with
            applyCalls := (applyReadContent s (get_file_path issue)).2.applyCalls + 1 }).disk
        (get_file_path issue) (a :: rest)
        [(get_file_path issue, (applyReadContent s (get_file_path issue)).1)]
        ⟨e0, he0, hem⟩
      rw [herr]
      obtain ⟨h1, h2, h3, h4, h5, h6, h7, h8⟩ := rejectCandidate_frame
        ({ (applyReadContent s (get_file_path issue)).2 with
            applyCalls := s.applyCalls + 1 })
        issue (get_file_path issue) .validation_error (.editGenerationFailed err)
        ((applyReadContent s (get_file_path issue)).2.validation_passed)
      obtain ⟨g1, g2, g3, g4, g5, g6, g7, g8, g9⟩ :=
        applyReadContent_frame s (get_file_path issue)
      exact ⟨_, rfl, h1.trans g2, h2.trans g3, h3.trans g4, h4.trans g5,
        h5.trans (congrArg (· + 1) g6), h6.trans g7⟩

/-- A concrete issue for the workflow examples. -/
def exIssue : SonarQubeIssue :=
  { key := "ISSUE-1", rule := "python:S1481", severity := "MAJOR",
    component := "proj:app.py", message := "Remove the unused variable",
    line := some 1, issueType := "CODE_SMELL" }

/-- A concrete initial workflow state (as the CLI builds it) over a one-file
disk. -/
def exBaseState : AgentState :=
  { repo_path := "/repo", issues := [exIssue], dry_run := false,
    llm_provider := "openai", current_issue_index := 0,
    current_issue := some exIssue, msgCount := 0, successful_fixes := [],
    failed_fixes := [], retry_count := 0, max_retries := 3,
    max_lines_changed := 30, max_change_ratio := ratTenth,
    validation_passed := false, temp_fixed_content := none,
    temp_original_content := none, temp_modified_files := none,
    file_cache := [], disk := fun _ => "x = 1\n".data, writes := [],
    applyCalls := 0, validateCalls := 0 }

/-- An environment whose fix reply is a single pure-deletion edit (empty
`new_code`). -/
def exEnvC9 : Env :=
  { reply := fun _ => .decoded ⟨[⟨none, "x = 1".data, []⟩], none, none⟩,
    syntaxErrors := fun _ _ => [],
    unixDiff := fun _ _ => [],
    diffText := fun _ _ _ => "" }

/-- Closed witness for `apply_fix_rejects_empty_code_spec`. -/
theorem apply_fix_rejects_empty_code_spec_witness :
    (applyEditsLoop [] (fun _ => []) "app.py"
        [⟨none, "x".data, []⟩] [] = .error (.missingCode "app.py"))
    ∧ ∃ s', apply_fix exEnvC9 exBaseState = .ok s' ∧
        s'.temp_modified_files = exBaseState.temp_modified_files ∧
        s'.temp_fixed_content = exBaseState.temp_fixed_content ∧
        s'.temp_original_content = exBaseState.temp_original_content ∧
        s'.writes = exBaseState.writes ∧
        s'.retry_count = exBaseState.retry_count + 1 ∧
        s'.successful_fixes = exBaseState.successful_fixes :=
  ⟨apply_fix_rejects_empty_code_spec.1 [] (fun _ => []) "app.py"
      ⟨none, "x".data, []⟩ [] [] (Or.inr rfl),
    apply_fix_rejects_empty_code_spec.2.2.1 exEnvC9 exBaseState exIssue
      ⟨[⟨none, "x = 1".data, []⟩], none, none⟩ rfl rfl
      ⟨⟨none, "x = 1".data, []⟩, List.mem_singleton.mpr rfl, Or.inr rfl⟩⟩

/-! ## Equations for `validate_fix`'s three outcomes -/

theorem validate_fix_syntax_reject (env : Env) (s : AgentState) (issue : SonarQubeIssue)
    (files : Dict Str)
    (hiss : s.current_issue = some issue)
    (hfiles : filesOf s.temp_modified_files s.temp_fixed_content
      (get_file_path issue) = some files)
    (herrs : syntaxGateErrors env files ≠ []) :
    validate_fix env s = .ok (rejectCandidate { s with validateCalls := s.validateCalls + 1 }
      issue (get_file_path issue) .validation_error
      (.validationErrors (syntaxGateErrors env files)) false) := by
  simp only [validate_fix, hiss]
  rw [hfiles]
  dsimp only
  rw [if_pos herrs]

theorem validate_fix_size_reject (env : Env) (s : AgentState) (issue : SonarQubeIssue)
    (files : Dict Str)
    (hiss : s.current_issue = some issue)
    (hfiles : filesOf s.temp_modified_files s.temp_fixed_content
      (get_file_path issue) = some files)
    (herrs : syntaxGateErrors env files = [])
    (hsize : (decide ((files.foldl (sizeGateStep env s.file_cache s.disk s.max_change_ratio)
        (0, false, "", [])).1 > s.max_lines_changed)
      || (files.foldl (sizeGateStep env s.file_cache s.disk s.max_change_ratio)
        (0, false, "", [])).2.1) = true) :
    validate_fix env s = .ok (rejectCandidate { s with validateCalls := s.validateCalls + 1 }
      issue (get_file_path issue) .validation_error
      (.excessiveChanges
        (files.foldl (sizeGateStep env s.file_cache s.disk s.max_change_ratio)
          (0, false, "", [])).1
        (if (files.foldl (sizeGateStep env s.file_cache s.disk s.max_change_ratio)
            (0, false, "", [])).2.1 = true
         then some (files.foldl (sizeGateStep env s.file_cache s.disk s.max_change_ratio)
            (0, false, "", [])).2.2.1
         else none)) false) := by
  simp only [validate_fix, hiss]
  rw [hfiles]
  dsimp only
  rw [if_neg (by simp [herrs]), if_pos hsize]

theorem validate_fix_accept (env : Env) (s : AgentState) (issue : SonarQubeIssue)
    (files : Dict Str)
    (hiss : s.current_issue = some issue)
    (hfiles : filesOf s.temp_modified_files s.temp_fixed_content
      (get_file_path issue) = some files)
    (herrs : syntaxGateErrors env files = [])
    (hsize : (decide ((files.foldl (sizeGateStep env s.file_cache s.disk s.max_change_ratio)
        (0, false, "", [])).1 > s.max_lines_changed)
      || (files.foldl (sizeGateStep env s.file_cache s.disk s.max_change_ratio)
        (0, false, "", [])).2.1) = false) :
    validate_fix env s = .error (.nameError "original_content",
      files.foldl writeStep
        { { s with validateCalls := s.validateCalls + 1 } with validation_passed := true }) := by
  simp only [validate_fix, hiss]
  rw [hfiles]
  dsimp only
  rw [if_neg (by simp [herrs]), if_neg (by simp [hsize])]

/-! ## C2: the retry/escalate policy -/

/-- The CLI-shaped initial state for the scenario runs (no issue selected
yet). -/
def exInitState : AgentState := { exBaseState with current_issue := none }

/-- Environment realizing C2's scenario: every apply reply decodes to one
applicable edit, and the parser rejects every candidate, so every attempt
fails syntax validation. -/
def exEnvC2 : Env :=
  { reply := fun _ => .decoded ⟨[⟨none, "x = 1".data, "y = 2".data⟩], none, none⟩,
    syntaxErrors := fun _ _ => ["Syntax error at line 1"],
    unixDiff := fun _ _ => [],
    diffText := fun _ _ _ => "" }

/-- C2 (amended): the retry policy, restricted to issues *each of whose
apply attempts yields a candidate edit set* that then fails validation (as
stated the claim also covers issues with no candidate edits at all, and
there it is false: see `retry_policy_stale_counterexample`).
`select_next_issue` resets the retry counter exactly when it selects
an issue (past the end it only clears `current_issue`); `analyze_issue`
leaves the counter, index and failure records alone; the shared
retry/escalate handler (used by every failed apply or validation attempt)
increments the counter exactly once and, exactly at the configured maximum,
appends exactly one `FailedFix` and advances the issue index by one; and a
complete run over one issue with `max_retries = 3` whose every apply attempt
produces a candidate that fails validation performs exactly 3 apply and 3
validate attempts, records exactly one `FailedFix`, no success and no write,
advances the index exactly once, and terminates. -/
theorem retry_policy_spec :
    (∀ (s : AgentState) (h : s.current_issue_index < s.issues.length),
      (select_next_issue s).retry_count = 0 ∧
      (select_next_issue s).current_issue = some (s.issues.get ⟨s.current_issue_index, h⟩) ∧
      (select_next_issue s).current_issue_index = s.current_issue_index ∧
      (select_next_issue s).failed_fixes = s.failed_fixes)
    ∧ (∀ s : AgentState, s.issues.length ≤ s.current_issue_index →
        select_next_issue s = { s with current_issue := none })
    ∧ (∀ s : AgentState,
        (analyze_issue s).retry_count = s.retry_count ∧
        (analyze_issue s).current_issue_index = s.current_issue_index ∧
        (analyze_issue s).failed_fixes = s.failed_fixes)
    ∧ (∀ (s : AgentState) (issue : SonarQubeIssue) (fp : String) (st : FixStatus)
        (msg : ErrMsg) (b : Bool),
        (rejectCandidate s issue fp st msg b).retry_count = s.retry_count + 1 ∧
        (s.max_retries ≤ s.retry_count + 1 →
          (rejectCandidate s issue fp st msg b).failed_fixes =
            s.failed_fixes ++ [⟨issue.key, fp, st, msg, s.llm_provider, s.retry_count + 1⟩] ∧
          (rejectCandidate s issue fp st msg b).current_issue_index =
            s.current_issue_index + 1) ∧
        (s.retry_count + 1 < s.max_retries →
          (rejectCandidate s issue fp st msg b).failed_fixes = s.failed_fixes ∧
          (rejectCandidate s issue fp st msg b).current_issue_index =
            s.current_issue_index))
    ∧ (∃ sf : AgentState, runWorkflow exEnvC2 12 exInitState = .ok (sf, .terminal) ∧
        sf.failed_fixes.length = 1 ∧ sf.successful_fixes = [] ∧
        sf.current_issue_index = 1 ∧ sf.applyCalls = 3 ∧ sf.validateCalls = 3 ∧
        sf.retry_count = 3 ∧ sf.writes = []) := by
  refine ⟨?_, ?_, ?_, ?_, ?_⟩
  · intro s h
    have hn : ¬ (s.current_issue_index ≥ s.issues.length) := by omega
    simp [select_next_issue, hn]
  · intro s h
    unfold select_next_issue
    rw [dif_pos h]
  · intro s
    unfold analyze_issue
    cases s.current_issue with
    | none => exact ⟨rfl, rfl, rfl⟩
    | some issue =>
      dsimp only
      split <;> exact ⟨rfl, rfl, rfl⟩
  · intro s issue fp st msg b
    unfold rejectCandidate
    by_cases h : s.retry_count + 1 ≥ s.max_retries
    · rw [if_pos h]
      exact ⟨rfl, fun _ => ⟨rfl, rfl⟩, fun hlt => absurd h (by omega)⟩
    · rw [if_neg h]
      exact ⟨rfl, fun hge => absurd hge (by omega), fun _ => ⟨rfl, rfl⟩⟩
  · exact ⟨_, rfl, rfl, rfl, rfl, rfl, rfl, rfl, rfl⟩

/-- Closed witness for `retry_policy_spec`: discharges the select and
handler hypotheses at concrete states. -/
theorem retry_policy_spec_witness :
    (select_next_issue exInitState).retry_count = 0 ∧
    select_next_issue { exBaseState with current_issue_index := 5 } =
      { exBaseState with current_issue_index := 5, current_issue := none } ∧
    (rejectCandidate exBaseState exIssue "app.py" .validation_error
      (.editGenerationFailed .jsonDecode) false).failed_fixes = exBaseState.failed_fixes ∧
    (rejectCandidate { exBaseState with retry_count := 2 } exIssue "app.py"
      .validation_error (.editGenerationFailed .jsonDecode) false).current_issue_index =
      exBaseState.current_issue_index + 1 := by
  refine ⟨(retry_policy_spec.1 exInitState (by decide)).1,
    retry_policy_spec.2.1 { exBaseState with current_issue_index := 5 } (by decide),
    ((retry_policy_spec.2.2.2.1 exBaseState exIssue "app.py" .validation_error
      (.editGenerationFailed .jsonDecode) false).2.2 (by decide)).1,
    ((retry_policy_spec.2.2.2.1 { exBaseState with retry_count := 2 } exIssue "app.py"
      .validation_error (.editGenerationFailed .jsonDecode) false).2.1 (by decide)).2⟩

/-! ## Dictionary and write-fold lemmas -/

theorem dictGet?_dictSet_eq {α : Type} (d : Dict α) (k : String) (v : α) :
    dictGet? (dictSet d k v) k = some v := by
  induction d with
  | nil => simp [dictSet, dictGet?]
  | cons kv rest ih =>
    by_cases h : kv.1 = k
    · simp [dictSet, dictGet?, h]
    · simp [dictSet, dictGet?, h, ih]

theorem dictGet?_dictSet_ne {α : Type} (d : Dict α) (k : String) (v : α) (q : String)
    (h : q ≠ k) :
    dictGet? (dictSet d k v) q = dictGet? d q := by
  have hk : ¬ (k = q) := fun hh => h hh.symm
  induction d with
  | nil => simp [dictSet, dictGet?, hk]
  | cons kv rest ih =>
    obtain ⟨k1, v1⟩ := kv
    by_cases hkv : k1 = k
    · subst hkv
      simp [dictSet, dictGet?, hk]
    · by_cases hq : k1 = q
      · simp [dictSet, dictGet?, hkv, hq, hk, h]
      · simp [dictSet, dictGet?, hkv, hq, ih]

theorem writeStep_dry_run (st : AgentState) (pc : String × Str) :
    (writeStep st pc).dry_run = st.dry_run := rfl

theorem writeFold_writes (files : Dict Str) :
    ∀ st : AgentState,
      (files.foldl writeStep st).writes =
        st.writes ++ files.map (fun pc => ⟨pc.1, pc.2, st.dry_run⟩) := by
  induction files with
  | nil => intro st; simp
  | cons pc rest ih =>
    intro st
    rw [List.foldl_cons, ih (writeStep st pc)]
    simp [writeStep, write_file]

theorem writeFold_dry_run (files : Dict Str) :
    ∀ st : AgentState, (files.foldl writeStep st).dry_run = st.dry_run := by
  induction files with
  | nil => intro st; rfl
  | cons pc rest ih => intro st; rw [List.foldl_cons, ih, writeStep_dry_run]

theorem writeFold_validation_passed (files : Dict Str) :
    ∀ st : AgentState, (files.foldl writeStep st).validation_passed = st.validation_passed := by
  induction files with
  | nil => intro st; rfl
  | cons pc rest ih => intro st; rw [List.foldl_cons, ih]; rfl

theorem writeFold_cache_not_mem (files : Dict Str) (p : String) :
    ∀ st : AgentState, p ∉ files.map Prod.fst →
      dictGet? (files.foldl writeStep st).file_cache p = dictGet? st.file_cache p := by
  induction files with
  | nil => intro st _; rfl
  | cons pc rest ih =>
    intro st hp
    rw [List.map_cons] at hp
    rw [List.foldl_cons, ih (writeStep st pc) (fun h => hp (List.mem_cons_of_mem _ h))]
    have hne : p ≠ pc.1 := fun h => hp (h ▸ List.mem_cons_self _ _)
    exact dictGet?_dictSet_ne st.file_cache pc.1 pc.2 p hne

theorem writeFold_cache_mem (files : Dict Str) :
    ∀ (st : AgentState) (p : String) (c : Str),
      (files.map Prod.fst).Nodup → (p, c) ∈ files →
      dictGet? (files.foldl writeStep st).file_cache p = some c := by
  induction files with
  | nil =>
    intro st p c _ hm
    exact absurd hm (List.not_mem_nil _)
  | cons pc rest ih =>
    intro st p c hnd hm
    rw [List.map_cons] at hnd
    rcases List.nodup_cons.mp hnd with ⟨hhead, htail⟩
    rcases List.mem_cons.mp hm with rfl | hm
    · rw [List.foldl_cons,
        writeFold_cache_not_mem rest p (writeStep st (p, c)) (by simpa using hhead)]
      exact dictGet?_dictSet_eq st.file_cache p c
    · rw [List.foldl_cons]
      exact ih (writeStep st pc) p c htail hm

/-- Environment realizing an accepted fix: the reply decodes to one
applicable edit, the parser is content, and the diff is empty. -/
def exEnvOk : Env :=
  { reply := fun _ => .decoded ⟨[⟨none, "x = 1".data, "y = 2".data⟩], none, none⟩,
    syntaxErrors := fun _ _ => [],
    unixDiff := fun _ _ => [],
    diffText := fun _ _ _ => "" }

/-- A state about to validate an in-memory candidate for `app.py`. -/
def exValState : AgentState :=
  { exBaseState with
    temp_modified_files := some [("app.py", "y = 2\n".data)]
    temp_fixed_content := some "y = 2\n".data
    temp_original_content := some "x = 1\n".data
    file_cache := [("app.py", "x = 1\n".data)] }

/-- C4: `validate_fix` performs no `write_file` call and no cache or disk
mutation when the candidate fails the syntax gate or the change-size gate (or
when there is no candidate); only on acceptance does it write — the write log
grows by exactly the touched files — and update the per-file cache, mapping
every touched path to its new content and leaving every other path alone; and
`apply_fix`'s content read takes the cached content as the baseline whenever
the cache holds one (which is how an accepted fix's content becomes the
baseline for later issues touching the same file). -/
theorem write_after_gates_spec :
    (∀ (env : Env) (s : AgentState) (issue : SonarQubeIssue) (files : Dict Str),
      s.current_issue = some issue →
      filesOf s.temp_modified_files s.temp_fixed_content
        (get_file_path issue) = some files →
      syntaxGateErrors env files ≠ [] →
      ∃ s', validate_fix env s = .ok s' ∧ s'.writes = s.writes ∧
        s'.file_cache = s.file_cache ∧ s'.disk = s.disk ∧
        s'.successful_fixes = s.successful_fixes)
    ∧ (∀ (env : Env) (s : AgentState) (issue : SonarQubeIssue) (files : Dict Str),
      s.current_issue = some issue →
      filesOf s.temp_modified_files s.temp_fixed_content
        (get_file_path issue) = some files →
      syntaxGateErrors env files = [] →
      (decide ((files.foldl (sizeGateStep env s.file_cache s.disk s.max_change_ratio)
          (0, false, "", [])).1 > s.max_lines_changed)
        || (files.foldl (sizeGateStep env s.file_cache s.disk s.max_change_ratio)
          (0, false, "", [])).2.1) = true →
      ∃ s', validate_fix env s = .ok s' ∧ s'.writes = s.writes ∧
        s'.file_cache = s.file_cache ∧ s'.disk = s.disk ∧
        s'.successful_fixes = s.successful_fixes)
    ∧ (∀ (env : Env) (s : AgentState) (issue : SonarQubeIssue) (files : Dict Str),
      s.current_issue = some issue →
      filesOf s.temp_modified_files s.temp_fixed_content
        (get_file_path issue) = some files →
      syntaxGateErrors env files = [] →
      (decide ((files.foldl (sizeGateStep env s.file_cache s.disk s.max_change_ratio)
          (0, false, "", [])).1 > s.max_lines_changed)
        || (files.foldl (sizeGateStep env s.file_cache s.disk s.max_change_ratio)
          (0, false, "", [])).2.1) = false →
      ∃ s', validate_fix env s = .error (.nameError "original_content", s') ∧
        s'.writes = s.writes ++ files.map (fun pc => ⟨pc.1, pc.2, s.dry_run⟩) ∧
        ((files.map Prod.fst).Nodup →
          ∀ pc ∈ files, dictGet? s'.file_cache pc.1 = some pc.2) ∧
        (∀ p, p ∉ files.map Prod.fst →
          dictGet? s'.file_cache p = dictGet? s.file_cache p) ∧
        s'.validation_passed = true)
    ∧ (∀ (s : AgentState) (fp : String) (c : Str),
        dictGet? s.file_cache fp = some c → applyReadContent s fp = (c, s)) := by
  refine ⟨?_, ?_, ?_, ?_⟩
  · intro env s issue files hiss hfiles herrs
    rw [validate_fix_syntax_reject env s issue files hiss hfiles herrs]
    obtain ⟨_, _, _, h4, _, h6, h7, h8⟩ := rejectCandidate_frame
      { s with validateCalls := s.validateCalls + 1 } issue (get_file_path issue)
      .validation_error (.validationErrors (syntaxGateErrors env files)) false
    exact ⟨_, rfl, h4, h7, h8, h6⟩
  · intro env s issue files hiss hfiles herrs hsize
    rw [validate_fix_size_reject env s issue files hiss hfiles herrs hsize]
    obtain ⟨_, _, _, h4, _, h6, h7, h8⟩ := rejectCandidate_frame
      { s with validateCalls := s.validateCalls + 1 } issue (get_file_path issue)
      .validation_error _ false
    exact ⟨_, rfl, h4, h7, h8, h6⟩
  · intro env s issue files hiss hfiles herrs hsize
    rw [validate_fix_accept env s issue files hiss hfiles herrs hsize]
    refine ⟨_, rfl, ?_, ?_, ?_, ?_⟩
    · exact writeFold_writes files _
    · intro hnd pc hpc
      exact writeFold_cache_mem files _ pc.1 pc.2 hnd hpc
    · intro p hp
      exact writeFold_cache_not_mem files p _ hp
    · have h := writeFold_validation_passed files
        { { s with validateCalls := s.validateCalls + 1 } with validation_passed := true }
      rw [h]
  · intro s fp c h
    unfold applyReadContent
    rw [h]

/-- Closed witness for `write_after_gates_spec`: a rejected and an accepted
candidate over the same state, plus a cache-baseline read. -/
theorem write_after_gates_spec_witness :
    (∃ s', validate_fix exEnvC2 exValState = .ok s' ∧ s'.writes = exValState.writes ∧
      s'.file_cache = exValState.file_cache ∧ s'.disk = exValState.disk ∧
      s'.successful_fixes = exValState.successful_fixes)
    ∧ (∃ s', validate_fix exEnvOk exValState = .error (.nameError "original_content", s') ∧
        s'.writes = exValState.writes ++
          ([("app.py", "y = 2\n".data)] : Dict Str).map
            (fun pc => ⟨pc.1, pc.2, exValState.dry_run⟩) ∧
        ((([("app.py", "y = 2\n".data)] : Dict Str).map Prod.fst).Nodup →
          ∀ pc ∈ ([("app.py", "y = 2\n".data)] : Dict Str),
            dictGet? s'.file_cache pc.1 = some pc.2) ∧
        (∀ p, p ∉ ([("app.py", "y = 2\n".data)] : Dict Str).map Prod.fst →
          dictGet? s'.file_cache p = dictGet? exValState.file_cache p) ∧
        s'.validation_passed = true)
    ∧ applyReadContent exValState "app.py" = ("x = 1\n".data, exValState) :=
  ⟨write_after_gates_spec.1 exEnvC2 exValState exIssue [("app.py", "y = 2\n".data)]
      rfl rfl (by decide),
    write_after_gates_spec.2.2.1 exEnvOk exValState exIssue [("app.py", "y = 2\n".data)]
      rfl rfl (by decide) (by decide),
    write_after_gates_spec.2.2.2 exValState "app.py" "x = 1\n".data (by decide)⟩

/-! ## C6: dry-run behaviour (and the NameError that cuts it short) -/

/-- The C4/C6 validation state with the dry-run flag set. -/
def exDryState : AgentState := { exValState with dry_run := true }

/-- C6: with dry-run, `write_file` reports a `dry_run` status and leaves the
disk untouched, and the acceptance loop therefore never changes the disk;
on a concrete accepted dry-run fix the cache is updated with the new content,
the write log records exactly one dry-run write, the disk is unchanged — but
instead of appending a success `FixResult`, `validate_fix` raises `NameError`
(undefined local `original_content`), leaving `successful_fixes` untouched. -/
theorem dry_run_spec :
    (∀ (disk : String → Str) (p : String) (c : Str), write_file disk p c true = (disk, "dry_run"))
    ∧ (∀ (files : Dict Str) (st : AgentState), st.dry_run = true →
        (files.foldl writeStep st).disk = st.disk)
    ∧ (∃ s', validate_fix exEnvOk exDryState = .error (.nameError "original_content", s') ∧
        dictGet? s'.file_cache "app.py" = some "y = 2\n".data ∧
        s'.disk = exDryState.disk ∧
        s'.writes = [⟨"app.py", "y = 2\n".data, true⟩] ∧
        s'.successful_fixes = exDryState.successful_fixes ∧
        s'.successful_fixes = []) := by
  refine ⟨fun _ _ _ => rfl, ?_, ?_⟩
  · intro files
    induction files with
    | nil => intro st _; rfl
    | cons pc rest ih =>
      intro st hdry
      rw [List.foldl_cons, ih (writeStep st pc) (by rw [writeStep_dry_run]; exact hdry)]
      simp [writeStep, write_file, hdry]
  · exact ⟨_, rfl, by decide, rfl, by decide, rfl, rfl⟩

/-- Closed witness for `dry_run_spec`: the fold lemma at a concrete state. -/
theorem dry_run_spec_witness :
    (([("app.py", "z".data)] : Dict Str).foldl writeStep exDryState).disk =
      exDryState.disk :=
  dry_run_spec.2.1 [("app.py", "z".data)] exDryState rfl

/-! ## C7: how runs actually end -/

/-- The CLI-shaped state over an empty issue list (the CLI itself refuses to
start the graph in this case, but the workflow crashes on it). -/
def exEmptyState : AgentState := { exInitState with issues := [] }

/-- C7 (documenting two crashes): invoked on an empty issue list the graph
reaches `finalize`, which divides by the issue count and raises
`ZeroDivisionError`; and a run containing an *accepted* fix never reaches
`finalize` at all — `validate_fix` raises `NameError` after writing, with
neither a `FixResult` nor a `FailedFix` recorded for the issue.  For a
non-empty issue list `finalize` itself succeeds, and the summary numbers are
the issue/success/failure counts. -/
theorem run_termination_spec :
    (∃ sf, runWorkflow exEnvOk 5 exEmptyState = .error (.zeroDivision, sf))
    ∧ (∃ sf, runWorkflow exEnvOk 12 exInitState = .error (.nameError "original_content", sf) ∧
        sf.successful_fixes = [] ∧ sf.failed_fixes = [])
    ∧ (∀ s : AgentState, s.issues.length ≠ 0 →
        finalize s = .ok { s with msgCount := s.msgCount + 1 })
    ∧ (∀ s : AgentState, (summaryOf s).total_issues = s.issues.length ∧
        (summaryOf s).successful = s.successful_fixes.length ∧
        (summaryOf s).failed = s.failed_fixes.length) := by
  refine ⟨⟨_, rfl⟩, ⟨_, rfl, rfl, rfl⟩, ?_, fun s => ⟨rfl, rfl, rfl⟩⟩
  intro s h
  unfold finalize
  rw [if_neg h]

/-- Closed witness for `run_termination_spec`: `finalize` succeeds on a
one-issue state. -/
theorem run_termination_spec_witness :
    finalize exBaseState = .ok { exBaseState with msgCount := exBaseState.msgCount + 1 } :=
  run_termination_spec.2.2.1 exBaseState (by decide)

/-! ## `validation/locator.py` — the Context Locator

A tree-sitter parse tree is modelled by the mutual inductive below (a node:
type, source text, 0-indexed `start_point`/`end_point` as (row, column),
children).  `get_parser` together with `Parser.parse` is the oracle
`parsers : String → Option (Str → TSNode)`; `parsers lang = none` models
`get_parser` raising for an unsupported language. -/

mutual
inductive TSNode where
  | mk (nodeType : String) (text : Str) (startPoint endPoint : Nat × Nat)
      (children : TSNodeList)
  deriving DecidableEq
inductive TSNodeList where
  | nil
  | cons (head : TSNode) (tail : TSNodeList)
  deriving DecidableEq
end

def TSNode.nodeType : TSNode → String
  | .mk t _ _ _ _ => t

def TSNode.text : TSNode → Str
  | .mk _ x _ _ _ => x

def TSNode.startPoint : TSNode → Nat × Nat
  | .mk _ _ sp _ _ => sp

def TSNode.endPoint : TSNode → Nat × Nat
  | .mk _ _ _ ep _ => ep

def TSNode.children : TSNode → TSNodeList
  | .mk _ _ _ _ cs => cs

def TSNodeList.toList : TSNodeList → List TSNode
  | .nil => []
  | .cons c rest => c :: rest.toList

/-- `parent.children[:5]` decoded to texts (locator.py 58-61). -/
def TSNodeList.takeTexts : Nat → TSNodeList → List Str
  | 0, _ => []
  | _, .nil => []
  | n + 1, .cons c rest => c.text :: rest.takeTexts n

/-- The child-containment test of `find_deepest_node` (locator.py 41-47):
the outer row-range check and the inner three-way position check, exactly as
written. -/
def nodeCond (target_line target_col : Nat) (c : TSNode) : Bool :=
  (decide (c.startPoint.1 ≤ target_line) && decide (target_line ≤ c.endPoint.1)) &&
    ((decide (c.startPoint.1 < target_line) && decide (target_line < c.endPoint.1)) ||
     (decide (c.startPoint.1 = target_line) && decide (c.startPoint.2 ≤ target_col)) ||
     (decide (c.endPoint.1 = target_line) && decide (c.endPoint.2 ≥ target_col)))

mutual
/-- `find_deepest_node` (locator.py 38-49), with the parent of the returned
node tracked alongside: descend into the first child meeting `nodeCond`,
return the current node when no child qualifies. -/
def findDeepest (line col : Nat) (parent : Option TSNode) : TSNode → TSNode × Option TSNode
  | .mk t x sp ep cs => findDeepestAux line col (.mk t x sp ep cs) parent cs

def findDeepestAux (line col : Nat) (self : TSNode) (parent : Option TSNode) :
    TSNodeList → TSNode × Option TSNode
  | .nil => (self, parent)
  | .cons c rest =>
    if nodeCond line col c then findDeepest line col (some self) c
    else findDeepestAux line col self parent rest
end

/-- The `IssueContext` dataclass (locator.py 8-18). -/
structure IssueContext where
  node_type : String
  node_text : Str
  parent_type : String
  parent_text : Str
  siblings : List Str
  start_line : Nat
  end_line : Nat
  deriving DecidableEq

/-- `locate_issue` (locator.py 21-71): `get_parser` raises for an
unsupported language (no `try` protects it); otherwise parse, descend from
the root at `(line - 1, column)`, take the parent (the node itself at the
root), and build the context: node/parent type and text, the first five
children of the parent as sibling texts, and the node's 1-indexed start/end
lines. -/
def locate_issue (parsers : String → Option (Str → TSNode)) (code : Str)
    (language : String) (line : Nat) (column : Nat) : Except String IssueContext :=
  match parsers language with
  | none => .error language
  | some parse =>
    let tree := parse code
    let fd := findDeepest (line - 1) column none tree
    let node := fd.1
    let parent := fd.2.getD node
    .ok { node_type := node.nodeType, node_text := node.text,
          parent_type := parent.nodeType, parent_text := parent.text,
          siblings := parent.children.takeTexts 5,
          start_line := node.startPoint.1 + 1,
          end_line := node.endPoint.1 + 1 }

/-- The caller's guard in `analyze_issue` (nodes.py 96-102): the locator is
invoked only when the extension detects a language *and* the issue has a
truthy (non-zero) line; otherwise the context is `None` and no exception can
arise. -/
def analyze_context (parsers : String → Option (Str → TSNode)) (content : Str)
    (file_path : String) (line : Option Nat) : Except String (Option IssueContext) :=
  match detect_language_from_extension file_path with
  | some lang =>
    match line with
    | some l =>
      if l = 0 then .ok none
      else (locate_issue parsers content lang l 0).map some
    | none => .ok none
  | none => .ok none

mutual
def TSNode.size : TSNode → Nat
  | .mk _ _ _ _ cs => 1 + cs.size

def TSNodeList.size : TSNodeList → Nat
  | .nil => 0
  | .cons c rest => c.size + rest.size
end

theorem size_le_of_mem_toList (c : TSNode) :
    ∀ cs : TSNodeList, c ∈ cs.toList → c.size ≤ cs.size
  | .nil, h => absurd h (List.not_mem_nil c)
  | .cons c' rest, h => by
    rcases List.mem_cons.mp h with rfl | h2
    · simp [TSNodeList.size]
    · have := size_le_of_mem_toList c rest h2
      simp [TSNodeList.size]
      omega

theorem takeTexts_length_le : ∀ (n : Nat) (cs : TSNodeList),
    (cs.takeTexts n).length ≤ n
  | 0, .nil => by simp [TSNodeList.takeTexts]
  | 0, .cons _ _ => by simp [TSNodeList.takeTexts]
  | n + 1, .nil => by simp [TSNodeList.takeTexts]
  | n + 1, .cons c rest => by
    have := takeTexts_length_le n rest
    simp [TSNodeList.takeTexts]
    omega

theorem findDeepestAux_spec (line col : Nat) (self : TSNode) (parent : Option TSNode) :
    ∀ cs : TSNodeList,
      (findDeepestAux line col self parent cs = (self, parent) ∧
        ∀ c ∈ cs.toList, nodeCond line col c = false)
      ∨ ∃ c ∈ cs.toList, nodeCond line col c = true ∧
          findDeepestAux line col self parent cs = findDeepest line col (some self) c
  | .nil => Or.inl ⟨rfl, fun c hc => absurd hc (List.not_mem_nil c)⟩
  | .cons c rest => by
    by_cases hc : nodeCond line col c
    · right
      refine ⟨c, ?_, hc, ?_⟩
      · simp [TSNodeList.toList]
      · simp [findDeepestAux, hc]
    · rcases findDeepestAux_spec line col self parent rest with
        ⟨heq, hall⟩ | ⟨c', hc', hcond, heq⟩
      · left
        refine ⟨by simp [findDeepestAux, hc]; exact heq, ?_⟩
        intro c'' hc''
        rcases List.mem_cons.mp hc'' with rfl | h
        · simpa using hc
        · exact hall c'' h
      · right
        refine ⟨c', ?_, hcond, ?_⟩
        · simp [TSNodeList.toList]
          exact Or.inr hc'
        · simp [findDeepestAux, hc]
          exact heq

theorem findDeepest_deepest (line col : Nat) :
    ∀ (n : Nat) (node : TSNode), node.size ≤ n → ∀ parent : Option TSNode,
      ∀ c ∈ ((findDeepest line col parent node).1).children.toList,
        nodeCond line col c = false := by
  intro n
  induction n with
  | zero =>
    intro node h
    cases node with
    | mk t x sp ep cs => simp [TSNode.size] at h
  | succ n ih =>
    intro node hsz parent
    cases node with
    | mk t x sp ep cs =>
      rcases findDeepestAux_spec line col (.mk t x sp ep cs) parent cs with
        ⟨heq, hall⟩ | ⟨c, hc, hcond, heq⟩
      · intro c' hc'
        rw [show findDeepest line col parent (.mk t x sp ep cs) =
          findDeepestAux line col (.mk t x sp ep cs) parent cs from rfl, heq] at hc'
        exact hall c' hc'
      · intro c' hc'
        rw [show findDeepest line col parent (.mk t x sp ep cs) =
          findDeepestAux line col (.mk t x sp ep cs) parent cs from rfl, heq] at hc'
        have hcsz : c.size ≤ n := by
          have h1 := size_le_of_mem_toList c cs hc
          simp [TSNode.size] at hsz
          omega
        exact ih c hcsz (some (.mk t x sp ep cs)) c' hc'

/-- A concrete parser table supporting only `python`. -/
def exPyParse : Str → TSNode :=
  fun _ => TSNode.mk "module" "x = 1".data (0, 0) (0, 5)
    (.cons (TSNode.mk "expression_statement" "x = 1".data (0, 0) (0, 5) .nil) .nil)

def exParsers : String → Option (Str → TSNode) :=
  fun lang => if lang = "python" then some exPyParse else none

/-- C8 counterexample to the claim as stated: invoked for an unsupported
language, `locate_issue` raises (the `get_parser` call is unprotected) — it
does not return "no context". -/
theorem locate_issue_unsupported_counterexample :
    locate_issue exParsers "x = 1".data "klingon" 1 0 = .error "klingon" := rfl

/-- C8 (amended): `locate_issue` itself raises for an unsupported language;
the graceful fallback lives in the caller, which consults the locator only
when the file's extension detects a language and the issue has a truthy line,
and otherwise proceeds with no context and no exception.  For a supported
language the locator returns the descent's deepest node — no child of the
result satisfies the containment condition — with its kind and text, the kind
and text of its parent (the node itself at the root), at most 5 sibling
texts (the first five children of the parent), and the node's 1-indexed
start and end lines. -/
theorem locate_issue_spec :
    (∀ (parsers : String → Option (Str → TSNode)) (code : Str) (lang : String)
        (line col : Nat), parsers lang = none →
        locate_issue parsers code lang line col = .error lang)
    ∧ (∀ (parsers : String → Option (Str → TSNode)) (content : Str)
        (file_path : String) (line : Option Nat),
        detect_language_from_extension file_path = none →
        analyze_context parsers content file_path line = .ok none)
    ∧ (∀ (parsers : String → Option (Str → TSNode)) (parse : Str → TSNode)
        (code : Str) (lang : String) (line col : Nat), parsers lang = some parse →
        ∃ ctx, locate_issue parsers code lang line col = .ok ctx ∧
          ctx.siblings.length ≤ 5 ∧
          ctx.node_type = (findDeepest (line - 1) col none (parse code)).1.nodeType ∧
          ctx.node_text = (findDeepest (line - 1) col none (parse code)).1.text ∧
          ctx.parent_type = ((findDeepest (line - 1) col none (parse code)).2.getD
            (findDeepest (line - 1) col none (parse code)).1).nodeType ∧
          ctx.parent_text = ((findDeepest (line - 1) col none (parse code)).2.getD
            (findDeepest (line - 1) col none (parse code)).1).text ∧
          ctx.start_line = (findDeepest (line - 1) col none (parse code)).1.startPoint.1 + 1 ∧
          ctx.end_line = (findDeepest (line - 1) col none (parse code)).1.endPoint.1 + 1 ∧
          ∀ c ∈ ((findDeepest (line - 1) col none (parse code)).1).children.toList,
            nodeCond (line - 1) col c = false) := by
  refine ⟨?_, ?_, ?_⟩
  · intro parsers code lang line col h
    simp [locate_issue, h]
  · intro parsers content file_path line h
    simp [analyze_context, h]
  · intro parsers parse code lang line col h
    refine ⟨IssueContext.mk
        ((findDeepest (line - 1) col none (parse code)).1.nodeType)
        ((findDeepest (line - 1) col none (parse code)).1.text)
        (((findDeepest (line - 1) col none (parse code)).2.getD
          (findDeepest (line - 1) col none (parse code)).1).nodeType)
        (((findDeepest (line - 1) col none (parse code)).2.getD
          (findDeepest (line - 1) col none (parse code)).1).text)
        (((findDeepest (line - 1) col none (parse code)).2.getD
          (findDeepest (line - 1) col none (parse code)).1).children.takeTexts 5)
        ((findDeepest (line - 1) col none (parse code)).1.startPoint.1 + 1)
        ((findDeepest (line - 1) col none (parse code)).1.endPoint.1 + 1),
      ?_, takeTexts_length_le 5 _, rfl, rfl, rfl, rfl, rfl, rfl, ?_⟩
    · simp [locate_issue, h]
    · exact findDeepest_deepest (line - 1) col (parse code).size (parse code) le_rfl none

/-- Closed witness for `locate_issue_spec`: the guard at an unrecognized
extension and a supported-language lookup on a concrete two-node tree. -/
theorem locate_issue_spec_witness :
    analyze_context exParsers "x = 1".data "notes.txt" (some 3) = .ok none ∧
    ∃ ctx, locate_issue exParsers "x = 1".data "python" 1 0 = .ok ctx ∧
      ctx.siblings.length ≤ 5 ∧
      ctx.node_type = (findDeepest 0 0 none (exPyParse "x = 1".data)).1.nodeType ∧
      ctx.node_text = (findDeepest 0 0 none (exPyParse "x = 1".data)).1.text ∧
      ctx.parent_type = ((findDeepest 0 0 none (exPyParse "x = 1".data)).2.getD
        (findDeepest 0 0 none (exPyParse "x = 1".data)).1).nodeType ∧
      ctx.parent_text = ((findDeepest 0 0 none (exPyParse "x = 1".data)).2.getD
        (findDeepest 0 0 none (exPyParse "x = 1".data)).1).text ∧
      ctx.start_line = (findDeepest 0 0 none (exPyParse "x = 1".data)).1.startPoint.1 + 1 ∧
      ctx.end_line = (findDeepest 0 0 none (exPyParse "x = 1".data)).1.endPoint.1 + 1 ∧
      ∀ c ∈ ((findDeepest 0 0 none (exPyParse "x = 1".data)).1).children.toList,
        nodeCond 0 0 c = false :=
  ⟨locate_issue_spec.2.1 exParsers "x = 1".data "notes.txt" (some 3) rfl,
    locate_issue_spec.2.2 exParsers exPyParse "x = 1".data "python" 1 0 rfl⟩

/-! ## C2 counterexample: stale candidates double-fail an issue -/

/-- A second issue in the same file. -/
def exIssue2 : SonarQubeIssue :=
  { key := "ISSUE-2", rule := "python:S1192", severity := "MAJOR",
    component := "proj:app.py", message := "Define a constant",
    line := some 1, issueType := "CODE_SMELL" }

/-- A two-issue initial state. -/
def exInit2State : AgentState :=
  { exInitState with issues := [exIssue, exIssue2] }

/-- Replies for the stale-candidate trace: the first issue's three attempts
decode to an applicable edit; every later reply is malformed JSON.  The
parser rejects every candidate. -/
def exEnvStale : Env :=
  { reply := fun n =>
      if n < 3 then .decoded ⟨[⟨none, "x = 1".data, "y = 2".data⟩], none, none⟩
      else .malformed,
    syntaxErrors := fun _ _ => ["Syntax error at line 1"],
    unixDiff := fun _ _ => [],
    diffText := fun _ _ _ => "" }

/-- C2 counterexample to the claim as stated.  `ISSUE-2`'s apply attempts all
fail to parse, so it has no candidate edits at all — "every candidate edit
fails validation" holds vacuously — yet the run records *two* `FailedFix`
entries for `ISSUE-2` and advances the issue index *twice* (to 3, past the
end of the two-issue list), in 2 apply plus 2 validate attempts: the graph's
unconditional `apply → validate` edge re-validates the stale
`_temp_modified_files` left over from `ISSUE-1`'s rejected candidate, and at
the retry boundary both the apply handler and the phantom validation handler
synthesize a `FailedFix` and advance the index. -/
theorem retry_policy_stale_counterexample :
    ∃ sf : AgentState, runWorkflow exEnvStale 18 exInit2State = .ok (sf, .terminal) ∧
      sf.issues.length = 2 ∧
      (sf.failed_fixes.filter (fun f => f.issue_key == "ISSUE-2")).length = 2 ∧
      sf.failed_fixes.length = 3 ∧
      sf.current_issue_index = 3 := by
  exact ⟨_, rfl, rfl, rfl, rfl, rfl⟩

end DebtZero
